import Mathlib

/-!
# Verification of the delivery-system solver

A shallow embedding of the delivery assignment solver (`solver.py`,
`utils.py`, `models.py`) of the NexgensisTask repository, together with
theorems settling the specification claims.

Modelling conventions:
* Python `float` values are modelled as real numbers; `float('inf')` is the
  top element of `WithTop ℝ` (written `⊤`), matching IEEE comparisons
  (`finite < inf` is true) and absorption under addition.
* Python dictionaries are modelled as association lists in insertion order;
  `d[k] = v` keeps the position of an existing key and appends a fresh one,
  exactly as CPython dicts do.  The key type of the solver's
  `active_agents` dict is `Option String` because the Python code can store
  the key `None` there (when the active set is empty, `best_agent_id` stays
  `None` and `active_agents[None] = ...` is executed).
* `raise ValueError(...)` is modelled with `Except SolveError`; the error
  payload carries the identifiers that appear in the Python message.
  A Python `KeyError` (dict subscript miss) is modelled with `Option`.
* `random.uniform(min,max)` is modelled by an oracle stream
  `delays : ℕ → ℝ` supplying the draw made while processing package `idx`;
  with `enable_delays = false` the oracle is never consulted, as in the
  source where `random.uniform` is not called.
* `round(x, 2)` is modelled by real rounding to the nearest hundredth
  (`round2`); the concrete inputs used in proofs stay away from ties, where
  the binary-float rounding of Python could differ from real rounding.
* The solve loop additionally returns a ghost trace: the active-agent map
  in force when each package is processed (after dynamic admission).  The
  trace is observation only — no computation reads it — and is used to
  state invariants about the tracked agent positions and the active set.
-/

noncomputable section

/-- `models.Location`: a 2D coordinate. -/
structure Location where
  x : ℝ
  y : ℝ

/-- `models.Warehouse`. -/
structure Warehouse where
  id : String
  location : Location

/-- `models.Agent`. -/
structure Agent where
  id : String
  location : Location

/-- `models.Package`. -/
structure Package where
  id : String
  warehouse_id : String
  destination : Location

/-- Keys of the solver's `active_agents` dict: agent ids, or Python `None`
(which the code both uses as the initial `best_agent_id` and can insert as a
dict key when the active set is empty). -/
abbrev AgentId := Option String

/-- A Python float that may be `inf`: `⊤` is `float('inf')`. -/
abbrev FloatV := WithTop ℝ

/-- `models.Assignment`. `total_distance` can be `float('inf')` (it is set to
the loop's `min_distance`, initialised to `float('inf')`), hence `FloatV`. -/
structure Assignment where
  agent_id : AgentId
  package_id : String
  warehouse_id : String
  total_distance : FloatV
  delay : ℝ
  timestamp : ℕ

/-- The `ValueError` raised by `DeliverySystemSolver.solve`, and the
`KeyError` a dict miss raises; the payload records the identifiers named in
the Python error. -/
inductive SolveError where
  | warehouseNotFound (warehouse_id : String) (package_id : String)
  deriving DecidableEq

/-- `utils.euclidean_distance`: `sqrt((x1-x2)^2 + (y1-y2)^2)`. -/
def euclidean_distance (loc1 loc2 : Location) : ℝ :=
  Real.sqrt ((loc1.x - loc2.x) ^ 2 + (loc1.y - loc2.y) ^ 2)

/-- `utils.calculate_trip_distance`: agent → warehouse → destination. -/
def calculate_trip_distance (agent_loc warehouse_loc destination : Location) : ℝ :=
  euclidean_distance agent_loc warehouse_loc +
    euclidean_distance warehouse_loc destination

/-- Python dict assignment `d[k] = v` on an insertion-ordered association
list: overwrite in place if the key is present, append otherwise. -/
def dictInsert (d : List (AgentId × Location)) (k : AgentId) (v : Location) :
    List (AgentId × Location) :=
  if d.any (fun p => p.1 == k) then
    d.map (fun p => if p.1 == k then (k, v) else p)
  else d ++ [(k, v)]

/-- Dict lookup `d[k]` (as an `Option`, `none` being a `KeyError`). -/
def lookupD (d : List (AgentId × Location)) (k : AgentId) : Option Location :=
  (d.find? (fun p => p.1 == k)).map (·.2)

/-- `package.warehouse_id in self.warehouses` / `self.warehouses[wid]`:
lookup in the warehouse dict (keys are the unique warehouse ids). -/
def lookupWarehouse (warehouses : List Warehouse) (wid : String) : Option Warehouse :=
  warehouses.find? (fun w => w.id == wid)

/-- The body of the agent-selection loop of `solve`: replace the running
`(best_agent_id, min_distance)` when this agent's trip distance is strictly
smaller (`if distance < min_distance`). -/
def bestStep (warehouse_loc dest : Location) (best : AgentId × FloatV)
    (p : AgentId × Location) : AgentId × FloatV :=
  let d := calculate_trip_distance p.2 warehouse_loc dest
  if (d : FloatV) < best.2 then (p.1, (d : FloatV)) else best

/-- The agent-selection loop of `solve` (lines 100–113 of `solver.py`):
starting from `best_agent_id = None`, `min_distance = float('inf')`, scan the
active dict in iteration (insertion) order and keep the first strictly
smaller trip distance. -/
def findBest (active : List (AgentId × Location)) (warehouse_loc dest : Location) :
    AgentId × FloatV :=
  active.foldl (bestStep warehouse_loc dest) (none, ⊤)

/-- `DeliverySystemSolver._add_pending_agents`: stable partition of the
pending queue by `current_package_idx >= join_idx`; admitted agents are
inserted into the active dict in registration order. -/
def addPendingAgents (current_package_idx : ℕ)
    (active : List (AgentId × Location)) (pending : List (ℕ × Agent)) :
    List (AgentId × Location) × List (ℕ × Agent) :=
  let agents_to_add := pending.filter (fun q => q.1 ≤ current_package_idx)
  let remaining_agents := pending.filter (fun q => current_package_idx < q.1)
  (agents_to_add.foldl (fun act q => dictInsert act (some q.2.id) q.2.location) active,
   remaining_agents)

/-- The body of `solve`'s per-package loop after dynamic admission:
warehouse check, agent selection, delay, assignment record, position update.
Returns the assignment and the updated active dict, or the `ValueError`. -/
def solveStep (warehouses : List Warehouse) (enable_delays : Bool) (delays : ℕ → ℝ)
    (package : Package) (idx : ℕ) (active : List (AgentId × Location)) :
    Except SolveError (Assignment × List (AgentId × Location)) :=
  match lookupWarehouse warehouses package.warehouse_id with
  | none => .error (.warehouseNotFound package.warehouse_id package.id)
  | some warehouse =>
    let fb := findBest active warehouse.location package.destination
    let delay : ℝ := if enable_delays then delays idx else 0
    let a : Assignment :=
      ⟨fb.1, package.id, package.warehouse_id, fb.2, delay, idx⟩
    .ok (a, dictInsert active fb.1 package.destination)

/-- Result of the solve loop: the assignment list (or the raised error), the
final `self.pending_agents` (the loop mutates it even when it raises), and
the ghost trace of the active dict at each processed package. -/
structure LoopOut where
  result : Except SolveError (List Assignment)
  pendingOut : List (ℕ × Agent)
  trace : List (List (AgentId × Location))

/-- The `for idx, package in enumerate(self.packages)` loop of `solve`. -/
def solveLoop (warehouses : List Warehouse) (enable_dynamic_agents : Bool)
    (enable_delays : Bool) (delays : ℕ → ℝ) :
    List Package → ℕ → List (AgentId × Location) → List (ℕ × Agent) → LoopOut
  | [], _, _, pending => ⟨.ok [], pending, []⟩
  | package :: rest, idx, active, pending =>
    let ap :=
      if enable_dynamic_agents then addPendingAgents idx active pending
      else (active, pending)
    match solveStep warehouses enable_delays delays package idx ap.1 with
    | .error e => ⟨.error e, ap.2, [ap.1]⟩
    | .ok (a, active2) =>
      let out := solveLoop warehouses enable_dynamic_agents enable_delays delays
        rest (idx + 1) active2 ap.2
      ⟨out.result.map (a :: ·), out.pendingOut, ap.1 :: out.trace⟩

/-- `DeliverySystemSolver.__init__` state. -/
structure Solver where
  warehouses : List Warehouse
  agents : List Agent
  packages : List Package
  enable_delays : Bool
  min_delay : ℝ
  max_delay : ℝ
  enable_dynamic_agents : Bool
  pending_agents : List (ℕ × Agent)

/-- `active_agents = {aid: agent.location for aid, agent in self.agents.items()}`. -/
def initialActive (agents : List Agent) : List (AgentId × Location) :=
  agents.map (fun a => (some a.id, a.location))

/-- `DeliverySystemSolver.solve`: returns the assignment list (or the raised
error) together with the solver state after the call (the call mutates
`self.pending_agents`). -/
def Solver.solve (S : Solver) (delays : ℕ → ℝ) :
    Except SolveError (List Assignment) × Solver :=
  let out := solveLoop S.warehouses S.enable_dynamic_agents S.enable_delays delays
    S.packages 0 (initialActive S.agents) S.pending_agents
  (out.result, { S with pending_agents := out.pendingOut })

/-- Ghost view of the solve call: the per-package active sets. -/
def Solver.solveTrace (S : Solver) (delays : ℕ → ℝ) :
    List (List (AgentId × Location)) :=
  (solveLoop S.warehouses S.enable_dynamic_agents S.enable_delays delays
    S.packages 0 (initialActive S.agents) S.pending_agents).trace

/-- `DeliverySystemSolver.calculate_total_distance`:
`sum(a.total_distance for a in assignments)`. -/
def Solver.calculate_total_distance (_S : Solver) (assignments : List Assignment) :
    FloatV :=
  (assignments.map (·.total_distance)).sum

/-- One step of a `result[assignment.agent_id].append(f(assignment))` loop
(used by both `get_assignments_by_agent` with `f = id` and `format_output`
with `f` building the per-assignment dict); `none` is the `KeyError` raised
when `assignment.agent_id` is not a key of `result` (in particular when it
is Python `None`, or a dynamically joined agent absent from
`self.agents`). -/
def appendByAgent {β : Type} (f : Assignment → β)
    (r : List (String × List β)) (a : Assignment) :
    Option (List (String × List β)) :=
  match a.agent_id with
  | none => none
  | some aid =>
    if r.any (fun p => p.1 == aid) then
      some (r.map (fun p => if p.1 == aid then (p.1, p.2 ++ [f a]) else p))
    else none

/-- `DeliverySystemSolver.get_assignments_by_agent`: start from
`{agent_id: [] for agent_id in self.agents.keys()}` and append each
assignment to its agent's list. -/
def Solver.get_assignments_by_agent (S : Solver) (assignments : List Assignment) :
    Option (List (String × List Assignment)) :=
  assignments.foldlM (appendByAgent (fun a => a))
    (S.agents.map (fun a => (a.id, [])))

/-- Python `round(x, 2)` on a finite float, modelled as real rounding to the
nearest hundredth. -/
def round2 (x : ℝ) : ℝ := (round (x * 100) : ℤ) / 100

/-- `round(x, 2)` on a possibly-infinite float (`round(inf, 2) = inf`). -/
def fround2 (v : FloatV) : FloatV := v.map round2

/-- Float division of a (possibly infinite) total by a package count. -/
def fdivNat (v : FloatV) (n : ℕ) : FloatV := v.map (· / (n : ℝ))

/-- One per-agent entry of `format_output`'s `assignments` dict. -/
structure AssignmentEntry where
  package_id : String
  warehouse_id : String
  distance : FloatV
  delay : ℝ

/-- The `statistics` sub-dict of `format_output`. -/
structure OutputStats where
  total_packages : ℕ
  total_agents : ℕ
  total_warehouses : ℕ
  average_distance_per_package : FloatV

/-- The output dict of `format_output`. -/
structure Output where
  total_distance : FloatV
  assignments : List (String × List AssignmentEntry)
  statistics : OutputStats

/-- `solver.format_output`.  The grouping loop indexes
`agent_assignments[assignment.agent_id]`, raising `KeyError` (here `none`)
when the agent id is not among `agents.keys()`. -/
def format_output (assignments : List Assignment) (warehouses : List Warehouse)
    (agents : List Agent) (packages : List Package) : Option Output :=
  let init : List (String × List AssignmentEntry) :=
    agents.map (fun a => (a.id, []))
  match assignments.foldlM
    (appendByAgent (fun a => ⟨a.package_id, a.warehouse_id,
      fround2 a.total_distance, round2 a.delay⟩))
    init with
  | none => none
  | some agent_assignments =>
    let total_distance : FloatV :=
      (assignments.map (fun (a : Assignment) => a.total_distance)).sum
    some
      { total_distance := fround2 total_distance
        assignments := agent_assignments
        statistics :=
          { total_packages := packages.length
            total_agents := agents.length
            total_warehouses := warehouses.length
            average_distance_per_package :=
              if packages.isEmpty then (0 : FloatV)
              else fround2 (fdivNat total_distance packages.length) } }

/-! ## Specification of the selection loop -/

/-- Full characterisation of the selection fold from any accumulator: either
no agent beats the accumulator (and all scanned distances are ≥ it), or the
fold returns the first agent attaining the minimum scanned distance among
those strictly below the accumulator. -/
theorem bestStep_foldl_spec (w dest : Location) :
    ∀ (l : List (AgentId × Location)) (acc : AgentId × FloatV),
      (l.foldl (bestStep w dest) acc = acc ∧
        ∀ q ∈ l, acc.2 ≤ (calculate_trip_distance q.2 w dest : FloatV)) ∨
      (∃ j : Fin l.length,
        l.foldl (bestStep w dest) acc =
            ((l.get j).1, (calculate_trip_distance (l.get j).2 w dest : FloatV)) ∧
        (calculate_trip_distance (l.get j).2 w dest : FloatV) < acc.2 ∧
        (∀ q ∈ l, calculate_trip_distance (l.get j).2 w dest ≤
          calculate_trip_distance q.2 w dest) ∧
        (∀ k : Fin l.length, (k : ℕ) < (j : ℕ) →
          calculate_trip_distance (l.get j).2 w dest <
            calculate_trip_distance (l.get k).2 w dest))
  | [], acc => Or.inl ⟨rfl, by simp⟩
  | p :: t, acc => by
    by_cases hd : (calculate_trip_distance p.2 w dest : FloatV) < acc.2
    · have hstep : (p :: t).foldl (bestStep w dest) acc =
          t.foldl (bestStep w dest)
            (p.1, (calculate_trip_distance p.2 w dest : FloatV)) := by
        simp [bestStep, hd]
      rcases bestStep_foldl_spec w dest t
          (p.1, (calculate_trip_distance p.2 w dest : FloatV)) with
        ⟨heq, hall⟩ | ⟨j, heq, hlt, hmin, hfirst⟩
      · refine Or.inr ⟨⟨0, Nat.succ_pos _⟩, ?_, hd, ?_, ?_⟩
        · rw [hstep, heq]; rfl
        · intro q hq
          rcases List.mem_cons.mp hq with rfl | hq
          · exact le_refl _
          · exact WithTop.coe_le_coe.mp (hall q hq)
        · intro k hk
          exact absurd hk (Nat.not_lt_zero _)
      · refine Or.inr ⟨⟨(j : ℕ) + 1, Nat.succ_lt_succ j.isLt⟩, ?_, ?_, ?_, ?_⟩
        · rw [hstep, heq]; rfl
        · exact lt_trans hlt hd
        · intro q hq
          rcases List.mem_cons.mp hq with rfl | hq
          · exact le_of_lt (WithTop.coe_lt_coe.mp hlt)
          · exact hmin q hq
        · rintro ⟨(_ | k), hk2⟩ hlt2
          · exact WithTop.coe_lt_coe.mp hlt
          · exact hfirst ⟨k, Nat.lt_of_succ_lt_succ hk2⟩ (Nat.lt_of_succ_lt_succ hlt2)
    · have hstep : (p :: t).foldl (bestStep w dest) acc =
          t.foldl (bestStep w dest) acc := by
        simp [bestStep, hd]
      rcases bestStep_foldl_spec w dest t acc with
        ⟨heq, hall⟩ | ⟨j, heq, hlt, hmin, hfirst⟩
      · refine Or.inl ⟨by rw [hstep, heq], ?_⟩
        intro q hq
        rcases List.mem_cons.mp hq with rfl | hq
        · exact not_lt.mp hd
        · exact hall q hq
      · refine Or.inr ⟨⟨(j : ℕ) + 1, Nat.succ_lt_succ j.isLt⟩, ?_, hlt, ?_, ?_⟩
        · rw [hstep, heq]; rfl
        · intro q hq
          rcases List.mem_cons.mp hq with rfl | hq
          · exact le_of_lt (WithTop.coe_lt_coe.mp (lt_of_lt_of_le hlt (not_lt.mp hd)))
          · exact hmin q hq
        · rintro ⟨(_ | k), hk2⟩ hlt2
          · exact WithTop.coe_lt_coe.mp (lt_of_lt_of_le hlt (not_lt.mp hd))
          · exact hfirst ⟨k, Nat.lt_of_succ_lt_succ hk2⟩ (Nat.lt_of_succ_lt_succ hlt2)

/-- On a non-empty active set, `findBest` returns an active agent whose trip
distance is recorded exactly, is minimal among all active agents, and which
is the first agent in iteration order attaining that minimum. -/
theorem findBest_spec (active : List (AgentId × Location)) (w dest : Location)
    (hne : active ≠ []) :
    ∃ j : Fin active.length,
      findBest active w dest =
          ((active.get j).1,
            (calculate_trip_distance (active.get j).2 w dest : FloatV)) ∧
      (∀ q ∈ active, calculate_trip_distance (active.get j).2 w dest ≤
        calculate_trip_distance q.2 w dest) ∧
      (∀ k : Fin active.length, (k : ℕ) < (j : ℕ) →
        calculate_trip_distance (active.get j).2 w dest <
          calculate_trip_distance (active.get k).2 w dest) := by
  rcases bestStep_foldl_spec w dest active (none, ⊤) with ⟨_, hall⟩ | ⟨j, h1, _, h3, h4⟩
  · rcases List.exists_mem_of_ne_nil active hne with ⟨q, hq⟩
    exact absurd (top_le_iff.mp (hall q hq)) WithTop.coe_ne_top
  · exact ⟨j, h1, h3, h4⟩

/-- The selected `best_agent_id` is `None` or the key of an active agent. -/
theorem findBest_fst_mem_or_none (active : List (AgentId × Location))
    (w dest : Location) :
    (findBest active w dest).1 = none ∨
      (findBest active w dest).1 ∈ active.map Prod.fst := by
  rcases bestStep_foldl_spec w dest active (none, ⊤) with ⟨heq, _⟩ | ⟨j, h1, _, _, _⟩
  · left; rw [findBest, heq]
  · right; rw [findBest, h1]
    exact List.mem_map_of_mem Prod.fst (active.get_mem j.1 j.2)

/-! ## Dictionary lemmas -/

theorem keys_any_eq (d : List (AgentId × Location)) (k : AgentId) :
    (d.any (fun p => p.1 == k)) = true ↔ k ∈ d.map Prod.fst := by
  simp only [List.any_eq_true, beq_iff_eq, List.mem_map]

theorem dictInsert_of_not_mem {d : List (AgentId × Location)} {k : AgentId}
    (v : Location) (h : k ∉ d.map Prod.fst) :
    dictInsert d k v = d ++ [(k, v)] := by
  rw [dictInsert, if_neg (fun hc => h ((keys_any_eq d k).mp hc))]

theorem dictInsert_key_mem (d : List (AgentId × Location)) (k : AgentId)
    (v : Location) : k ∈ (dictInsert d k v).map Prod.fst := by
  by_cases hmem : k ∈ d.map Prod.fst
  · rw [dictInsert, if_pos ((keys_any_eq d k).mpr hmem)]
    rcases List.mem_map.mp hmem with ⟨p, hp, rfl⟩
    refine List.mem_map.mpr ⟨(p.1, v), ?_, rfl⟩
    refine List.mem_map.mpr ⟨p, hp, ?_⟩
    simp
  · rw [dictInsert_of_not_mem v hmem]
    simp

theorem dictInsert_keys_sub (d : List (AgentId × Location)) (k : AgentId)
    (v : Location) {a : AgentId} (ha : a ∈ d.map Prod.fst) :
    a ∈ (dictInsert d k v).map Prod.fst := by
  by_cases hmem : k ∈ d.map Prod.fst
  · rw [dictInsert, if_pos ((keys_any_eq d k).mpr hmem)]
    rcases List.mem_map.mp ha with ⟨p, hp, rfl⟩
    refine List.mem_map.mpr ⟨_, List.mem_map_of_mem _ hp, ?_⟩
    by_cases h2 : p.1 == k
    · simp only [if_pos h2]
      exact (beq_iff_eq.mp h2).symm
    · simp only [if_neg h2]
  · rw [dictInsert_of_not_mem v hmem, List.map_append]
    exact List.mem_append_left _ ha

theorem keys_dictInsert_cases {d : List (AgentId × Location)} {k : AgentId}
    {v : Location} {a : AgentId} (ha : a ∈ (dictInsert d k v).map Prod.fst) :
    a = k ∨ a ∈ d.map Prod.fst := by
  rw [dictInsert] at ha
  split_ifs at ha with hc
  · rcases List.mem_map.mp ha with ⟨q, hq, rfl⟩
    rcases List.mem_map.mp hq with ⟨p, hp, rfl⟩
    by_cases h2 : (p.1 == k) = true
    · exact Or.inl (by rw [if_pos h2])
    · exact Or.inr (by rw [if_neg h2]; exact List.mem_map_of_mem _ hp)
  · rw [List.map_append] at ha
    rcases List.mem_append.mp ha with h | h
    · exact Or.inr h
    · simp at h
      exact Or.inl h

theorem lookupD_update_self (d : List (AgentId × Location)) (k : AgentId)
    (v : Location) (hmem : k ∈ d.map Prod.fst) :
    lookupD (d.map (fun p => if p.1 == k then (k, v) else p)) k = some v := by
  induction d with
  | nil => simp at hmem
  | cons p t ih =>
    by_cases h2 : p.1 == k
    · simp [lookupD, List.find?, h2]
    · rw [List.map_cons, if_neg h2]
      have hmem' : k ∈ t.map Prod.fst := by
        rcases List.mem_map.mp hmem with ⟨q, hq, rfl⟩
        rcases List.mem_cons.mp hq with rfl | hq
        · exact absurd (beq_iff_eq.mpr rfl) h2
        · exact List.mem_map_of_mem _ hq
      have hpred : (p.1 == k) = false := by
        simpa using h2
      simpa [lookupD, List.find?, hpred] using ih hmem'

theorem lookupD_append_single_self (d : List (AgentId × Location)) (k : AgentId)
    (v : Location) (hmem : k ∉ d.map Prod.fst) :
    lookupD (d ++ [(k, v)]) k = some v := by
  induction d with
  | nil => simp [lookupD, List.find?]
  | cons p t ih =>
    have h2 : (p.1 == k) = false := by
      simp only [beq_eq_false_iff_ne, ne_eq]
      intro hpk
      exact hmem (List.mem_map.mpr ⟨p, List.mem_cons_self p t, hpk⟩)
    have hmem' : k ∉ t.map Prod.fst := fun hk => by
      rcases List.mem_map.mp hk with ⟨q, hq, rfl⟩
      exact hmem (List.mem_map_of_mem _ (List.mem_cons_of_mem p hq))
    simpa [lookupD, List.find?, h2] using ih hmem'

theorem lookupD_dictInsert_self (d : List (AgentId × Location)) (k : AgentId)
    (v : Location) : lookupD (dictInsert d k v) k = some v := by
  by_cases hmem : k ∈ d.map Prod.fst
  · rw [dictInsert, if_pos ((keys_any_eq d k).mpr hmem)]
    exact lookupD_update_self d k v hmem
  · rw [dictInsert_of_not_mem v hmem]
    exact lookupD_append_single_self d k v hmem

theorem lookupD_update_ne (d : List (AgentId × Location)) (k : AgentId)
    (v : Location) {a : AgentId} (ha : a ≠ k) :
    lookupD (d.map (fun p => if p.1 == k then (k, v) else p)) a = lookupD d a := by
  induction d with
  | nil => rfl
  | cons p t ih =>
    by_cases h2 : p.1 == k
    · have hka : (k == a) = false := by
        simp only [beq_eq_false_iff_ne, ne_eq]
        exact fun h => ha h.symm
      have hpa : (p.1 == a) = false := by
        simp only [beq_eq_false_iff_ne, ne_eq]
        intro h
        exact ha (h.symm.trans (beq_iff_eq.mp h2))
      simpa [lookupD, List.find?, h2, hka, hpa] using ih
    · by_cases hpa : p.1 == a
      · simp [lookupD, List.find?, h2, hpa]
      · simpa [lookupD, List.find?, h2, hpa] using ih

theorem lookupD_append_single_ne (d : List (AgentId × Location)) (k : AgentId)
    (v : Location) {a : AgentId} (ha : a ≠ k) :
    lookupD (d ++ [(k, v)]) a = lookupD d a := by
  induction d with
  | nil =>
    have hka : (k == a) = false := by
      simp only [beq_eq_false_iff_ne, ne_eq]
      exact fun h => ha h.symm
    simp [lookupD, List.find?, hka]
  | cons p t ih =>
    by_cases hpa : p.1 == a
    · simp [lookupD, List.find?, hpa]
    · simpa [lookupD, List.find?, hpa] using ih

theorem lookupD_dictInsert_ne (d : List (AgentId × Location)) (k : AgentId)
    (v : Location) {a : AgentId} (ha : a ≠ k) :
    lookupD (dictInsert d k v) a = lookupD d a := by
  rw [dictInsert]
  split_ifs with hc
  · exact lookupD_update_ne d k v ha
  · exact lookupD_append_single_ne d k v ha

/-! ## Reduction lemmas for the solve loop -/

theorem solveStep_ok (wh : List Warehouse) (delaysOn : Bool) (delays : ℕ → ℝ)
    (p : Package) (idx : ℕ) (active : List (AgentId × Location)) (w : Warehouse)
    (hw : lookupWarehouse wh p.warehouse_id = some w) :
    solveStep wh delaysOn delays p idx active =
      .ok (⟨(findBest active w.location p.destination).1, p.id, p.warehouse_id,
            (findBest active w.location p.destination).2,
            (if delaysOn then delays idx else 0), idx⟩,
        dictInsert active (findBest active w.location p.destination).1
          p.destination) := by
  rw [solveStep, hw]

theorem solveStep_err (wh : List Warehouse) (delaysOn : Bool) (delays : ℕ → ℝ)
    (p : Package) (idx : ℕ) (active : List (AgentId × Location))
    (hw : lookupWarehouse wh p.warehouse_id = none) :
    solveStep wh delaysOn delays p idx active =
      .error (.warehouseNotFound p.warehouse_id p.id) := by
  rw [solveStep, hw]

theorem solveLoop_cons_of_ok {wh : List Warehouse} {dyn delaysOn : Bool}
    {delays : ℕ → ℝ} {p : Package} {rest : List Package} {idx : ℕ}
    {active act1 : List (AgentId × Location)} {pending pend1 : List (ℕ × Agent)}
    {w : Warehouse}
    (hap : (if dyn then addPendingAgents idx active pending
      else (active, pending)) = (act1, pend1))
    (hw : lookupWarehouse wh p.warehouse_id = some w) :
    solveLoop wh dyn delaysOn delays (p :: rest) idx active pending =
      ⟨(solveLoop wh dyn delaysOn delays rest (idx + 1)
          (dictInsert act1 (findBest act1 w.location p.destination).1 p.destination)
          pend1).result.map
        (⟨(findBest act1 w.location p.destination).1, p.id, p.warehouse_id,
          (findBest act1 w.location p.destination).2,
          (if delaysOn then delays idx else 0), idx⟩ :: ·),
       (solveLoop wh dyn delaysOn delays rest (idx + 1)
          (dictInsert act1 (findBest act1 w.location p.destination).1 p.destination)
          pend1).pendingOut,
       act1 :: (solveLoop wh dyn delaysOn delays rest (idx + 1)
          (dictInsert act1 (findBest act1 w.location p.destination).1 p.destination)
          pend1).trace⟩ := by
  rw [solveLoop, hap, solveStep_ok wh delaysOn delays p idx act1 w hw]

theorem solveLoop_cons_of_err {wh : List Warehouse} {dyn delaysOn : Bool}
    {delays : ℕ → ℝ} {p : Package} {rest : List Package} {idx : ℕ}
    {active act1 : List (AgentId × Location)} {pending pend1 : List (ℕ × Agent)}
    (hap : (if dyn then addPendingAgents idx active pending
      else (active, pending)) = (act1, pend1))
    (hw : lookupWarehouse wh p.warehouse_id = none) :
    solveLoop wh dyn delaysOn delays (p :: rest) idx active pending =
      ⟨.error (.warehouseNotFound p.warehouse_id p.id), pend1, [act1]⟩ := by
  rw [solveLoop, hap, solveStep_err wh delaysOn delays p idx act1 hw]

/-! ## Lemmas about dynamic admission -/

theorem admit_foldl_keys_sub :
    ∀ (l : List (ℕ × Agent)) (act : List (AgentId × Location)) {a : AgentId},
      a ∈ act.map Prod.fst →
      a ∈ (l.foldl (fun act q => dictInsert act (some q.2.id) q.2.location)
        act).map Prod.fst
  | [], _, _, ha => ha
  | _ :: t, _, _, ha =>
    admit_foldl_keys_sub t _ (dictInsert_keys_sub _ _ _ ha)

theorem admit_foldl_key_mem :
    ∀ (l : List (ℕ × Agent)) (act : List (AgentId × Location)) {q : ℕ × Agent},
      q ∈ l →
      some q.2.id ∈ (l.foldl (fun act q => dictInsert act (some q.2.id) q.2.location)
        act).map Prod.fst
  | q' :: t, act, q, hq => by
    rcases List.mem_cons.mp hq with rfl | hq
    · exact admit_foldl_keys_sub t _ (dictInsert_key_mem _ _ _)
    · exact admit_foldl_key_mem t _ hq

theorem admit_foldl_keys_cases :
    ∀ (l : List (ℕ × Agent)) (act : List (AgentId × Location)) {a : AgentId},
      a ∈ (l.foldl (fun act q => dictInsert act (some q.2.id) q.2.location)
        act).map Prod.fst →
      a ∈ act.map Prod.fst ∨ ∃ q ∈ l, a = some q.2.id
  | [], _, _, ha => Or.inl ha
  | q :: t, act, a, ha => by
    rcases admit_foldl_keys_cases t _ ha with h | ⟨q', hq', rfl⟩
    · rcases keys_dictInsert_cases h with rfl | h
      · exact Or.inr ⟨q, List.mem_cons_self q t, rfl⟩
      · exact Or.inl h
    · exact Or.inr ⟨q', List.mem_cons_of_mem _ hq', rfl⟩

theorem addPendingAgents_keys_sub (idx : ℕ) (act : List (AgentId × Location))
    (pending : List (ℕ × Agent)) {a : AgentId} (ha : a ∈ act.map Prod.fst) :
    a ∈ (addPendingAgents idx act pending).1.map Prod.fst :=
  admit_foldl_keys_sub _ _ ha

theorem addPendingAgents_admitted_mem (idx : ℕ) (act : List (AgentId × Location))
    (pending : List (ℕ × Agent)) {q : ℕ × Agent} (hq : q ∈ pending)
    (hthr : q.1 ≤ idx) :
    some q.2.id ∈ (addPendingAgents idx act pending).1.map Prod.fst :=
  admit_foldl_key_mem _ _ (List.mem_filter.mpr ⟨hq, by simpa using hthr⟩)

theorem addPendingAgents_keys_cases {idx : ℕ} {act : List (AgentId × Location)}
    {pending : List (ℕ × Agent)} {a : AgentId}
    (ha : a ∈ (addPendingAgents idx act pending).1.map Prod.fst) :
    a ∈ act.map Prod.fst ∨ ∃ q ∈ pending, q.1 ≤ idx ∧ a = some q.2.id := by
  rcases admit_foldl_keys_cases _ _ ha with h | ⟨q, hq, rfl⟩
  · exact Or.inl h
  · rcases List.mem_filter.mp hq with ⟨hq1, hq2⟩
    exact Or.inr ⟨q, hq1, by simpa using hq2, rfl⟩

theorem addPendingAgents_mem_snd {idx : ℕ} {pending : List (ℕ × Agent)}
    {q : ℕ × Agent} (hq : q ∈ pending) (h : idx < q.1)
    (act : List (AgentId × Location)) :
    q ∈ (addPendingAgents idx act pending).2 :=
  List.mem_filter.mpr ⟨hq, by simpa using h⟩

theorem addPendingAgents_snd_sub {idx : ℕ} {pending : List (ℕ × Agent)}
    {q : ℕ × Agent} (act : List (AgentId × Location))
    (hq : q ∈ (addPendingAgents idx act pending).2) :
    q ∈ pending ∧ idx < q.1 := by
  rcases List.mem_filter.mp hq with ⟨h1, h2⟩
  exact ⟨h1, by simpa using h2⟩

/-! ## The solve loop on fully resolvable package lists -/

/-- When every package's warehouse id resolves, the loop succeeds and
returns one assignment per package in order, carrying the package ids,
warehouse ids and consecutive timestamps. -/
theorem solveLoop_ok_spec (wh : List Warehouse) (dyn delaysOn : Bool)
    (delays : ℕ → ℝ) :
    ∀ (ps : List Package) (idx : ℕ) (active : List (AgentId × Location))
      (pending : List (ℕ × Agent)),
      (∀ p ∈ ps, (lookupWarehouse wh p.warehouse_id).isSome) →
      ∃ l, (solveLoop wh dyn delaysOn delays ps idx active pending).result = .ok l ∧
        l.map Assignment.package_id = ps.map Package.id ∧
        l.map Assignment.warehouse_id = ps.map Package.warehouse_id ∧
        l.map Assignment.timestamp = List.range' idx ps.length
  | [], _, _, pending, _ => ⟨[], rfl, rfl, rfl, rfl⟩
  | p :: rest, idx, active, pending, hres => by
    rcases Option.isSome_iff_exists.mp (hres p (List.mem_cons_self p rest)) with ⟨w, hw⟩
    obtain ⟨act1, pend1, hap⟩ :
        ∃ a b, (if dyn then addPendingAgents idx active pending
          else (active, pending)) = (a, b) :=
      ⟨_, _, rfl⟩
    rcases solveLoop_ok_spec wh dyn delaysOn delays rest (idx + 1)
        (dictInsert act1 (findBest act1 w.location p.destination).1 p.destination)
        pend1 (fun q hq => hres q (List.mem_cons_of_mem p hq)) with
      ⟨l', hl', h1, h2, h3⟩
    refine ⟨⟨(findBest act1 w.location p.destination).1, p.id, p.warehouse_id,
        (findBest act1 w.location p.destination).2,
        (if delaysOn then delays idx else 0), idx⟩ :: l', ?_, ?_, ?_, ?_⟩
    · rw [solveLoop_cons_of_ok hap hw]
      simp only [hl', Except.map]
    · simpa using h1
    · simpa using h2
    · simpa [List.range'] using h3

/-- The loop raises the unresolved-warehouse `ValueError` for the first
package whose warehouse id is absent, and returns no assignment list. -/
theorem solveLoop_err_spec (wh : List Warehouse) (dyn delaysOn : Bool)
    (delays : ℕ → ℝ) :
    ∀ (ps : List Package) (idx : ℕ) (active : List (AgentId × Location))
      (pending : List (ℕ × Agent)) (p : Package),
      ps.find? (fun q => (lookupWarehouse wh q.warehouse_id).isNone) = some p →
      (solveLoop wh dyn delaysOn delays ps idx active pending).result =
        .error (.warehouseNotFound p.warehouse_id p.id)
  | [], _, _, _, _, hfind => by simp at hfind
  | q :: rest, idx, active, pending, p, hfind => by
    obtain ⟨act1, pend1, hap⟩ :
        ∃ a b, (if dyn then addPendingAgents idx active pending
          else (active, pending)) = (a, b) :=
      ⟨_, _, rfl⟩
    by_cases hq : (lookupWarehouse wh q.warehouse_id).isNone
    · have hp : p = q := by
        rw [List.find?_cons_of_pos _ (by simpa using hq)] at hfind
        exact (Option.some_injective _ hfind).symm
      subst hp
      rw [solveLoop_cons_of_err hap (Option.isNone_iff_eq_none.mp hq)]
    · have hw : ∃ w, lookupWarehouse wh q.warehouse_id = some w :=
        Option.isSome_iff_exists.mp (by
          cases h : lookupWarehouse wh q.warehouse_id
          · exact absurd (by simp [h]) hq
          · simp)
      rcases hw with ⟨w, hw⟩
      rw [List.find?_cons_of_neg _ (by simpa using hq)] at hfind
      rw [solveLoop_cons_of_ok hap hw]
      have := solveLoop_err_spec wh dyn delaysOn delays rest (idx + 1)
        (dictInsert act1 (findBest act1 w.location q.destination).1 q.destination)
        pend1 p hfind
      simp only [this, Except.map]

/-! ## Concrete scenario data -/

/-- Warehouse `W1` at the origin. -/
def wh1 : Warehouse := ⟨"W1", ⟨0, 0⟩⟩

/-- Agent `A1` at `(1, 0)`. -/
def agA : Agent := ⟨"A1", ⟨1, 0⟩⟩

/-- Package `P1` from `W1` to the origin. -/
def pkg1 : Package := ⟨"P1", "W1", ⟨0, 0⟩⟩

/-- A minimal well-formed solver: one warehouse, one agent, one package,
both bonus features disabled. -/
def Sbase : Solver := ⟨[wh1], [agA], [pkg1], false, 5, 30, false, []⟩

/-- A solver whose only package references the absent warehouse id
`W_MISSING`. -/
def SbadW : Solver := ⟨[wh1], [agA], [⟨"P2", "W_MISSING", ⟨0, 0⟩⟩],
  false, 5, 30, false, []⟩

/-- The all-zero delay oracle (delays are disabled in the scenarios). -/
def noDelays : ℕ → ℝ := fun _ => 0

/-! ## Claim C10 -/

/-- C10: for every engine configuration and every agent set, including an
empty one, `solve()` on an empty package list returns the empty assignment
list and does not fail. -/
theorem solve_empty_packages (S : Solver) (delays : ℕ → ℝ) :
    (({ S with packages := [] } : Solver).solve delays).1 = .ok [] := rfl

/-! ## Claim C7 -/

/-- C7: if any package's warehouse id is absent from the warehouse set,
`solve()` fails with the unresolved-warehouse `ValueError` identifying the
(first such) package and its warehouse id, and returns no assignment list
(the `Except.error` result carries no assignments; the check happens when
that package is reached, before its assignment is recorded). -/
theorem solve_unresolved_warehouse (S : Solver) (delays : ℕ → ℝ)
    (hbad : ∃ p ∈ S.packages, lookupWarehouse S.warehouses p.warehouse_id = none) :
    ∃ p ∈ S.packages, lookupWarehouse S.warehouses p.warehouse_id = none ∧
      (S.solve delays).1 = .error (.warehouseNotFound p.warehouse_id p.id) := by
  have hsome : (S.packages.find?
      (fun q => (lookupWarehouse S.warehouses q.warehouse_id).isNone)).isSome := by
    rcases hbad with ⟨p, hp, hnone⟩
    exact List.find?_isSome.mpr ⟨p, hp, by simp [hnone]⟩
  rcases Option.isSome_iff_exists.mp hsome with ⟨p, hfind⟩
  refine ⟨p, List.mem_of_find?_eq_some hfind, ?_, ?_⟩
  · have := List.find?_some hfind
    simpa using this
  · exact solveLoop_err_spec S.warehouses S.enable_dynamic_agents S.enable_delays
      delays S.packages 0 (initialActive S.agents) S.pending_agents p hfind

/-- Witness for C7 on the concrete solver `SbadW`. -/
theorem solve_unresolved_warehouse_witness :
    (∃ p ∈ SbadW.packages,
        lookupWarehouse SbadW.warehouses p.warehouse_id = none) ∧
      ∃ p ∈ SbadW.packages,
        lookupWarehouse SbadW.warehouses p.warehouse_id = none ∧
        (SbadW.solve noDelays).1 =
          .error (.warehouseNotFound p.warehouse_id p.id) := by
  have h : ∃ p ∈ SbadW.packages,
      lookupWarehouse SbadW.warehouses p.warehouse_id = none :=
    ⟨⟨"P2", "W_MISSING", ⟨0, 0⟩⟩, List.mem_singleton.mpr rfl, rfl⟩
  exact ⟨h, solve_unresolved_warehouse SbadW noDelays h⟩

/-! ## Claim C3 -/

/-- C3: with dynamic agents disabled and a non-empty agent set (and every
package's warehouse id resolvable, which the data model requires of valid
inputs), `solve()` returns exactly one assignment per package, in package
input order: the output has the same length as the package list, the i-th
assignment carries the i-th package's id and sequence index i, and (when
package ids are unique, as the data model requires) every package id
appears exactly once. -/
theorem solve_one_per_package (S : Solver) (delays : ℕ → ℝ)
    (hagents : S.agents ≠ []) (hdyn : S.enable_dynamic_agents = false)
    (hres : ∀ p ∈ S.packages,
      (lookupWarehouse S.warehouses p.warehouse_id).isSome) :
    ∃ l, (S.solve delays).1 = .ok l ∧
      l.length = S.packages.length ∧
      l.map Assignment.package_id = S.packages.map Package.id ∧
      (∀ i, i < S.packages.length →
        (l.get? i).map Assignment.package_id = (S.packages.get? i).map Package.id ∧
        (l.get? i).map Assignment.timestamp = some i) ∧
      ((S.packages.map Package.id).Nodup →
        ∀ pid ∈ S.packages.map Package.id,
          (l.map Assignment.package_id).count pid = 1) := by
  rcases solveLoop_ok_spec S.warehouses S.enable_dynamic_agents S.enable_delays
      delays S.packages 0 (initialActive S.agents) S.pending_agents hres with
    ⟨l, hok, hpid, _hwid, hts⟩
  have hlen : l.length = S.packages.length := by
    have := congrArg List.length hpid
    simpa using this
  refine ⟨l, hok, hlen, hpid, ?_, ?_⟩
  · intro i hi
    constructor
    · rw [← List.get?_map, ← List.get?_map, hpid]
    · rw [← List.get?_map, hts]
      have hi2 : i < (List.range' 0 S.packages.length).length := by
        simpa using hi
      rw [List.get?_eq_get hi2]
      have := List.get_range' i hi2
      simpa using this
  · intro hnodup pid hpid2
    rw [hpid]
    exact List.count_eq_one_of_mem hnodup hpid2

/-- Witness for C3 on the concrete solver `Sbase`. -/
theorem solve_one_per_package_witness :
    (Sbase.agents ≠ [] ∧ Sbase.enable_dynamic_agents = false ∧
      ∀ p ∈ Sbase.packages,
        (lookupWarehouse Sbase.warehouses p.warehouse_id).isSome) ∧
    (∃ l, (Sbase.solve noDelays).1 = .ok l ∧
      l.length = Sbase.packages.length ∧
      l.map Assignment.package_id = Sbase.packages.map Package.id ∧
      (∀ i, i < Sbase.packages.length →
        (l.get? i).map Assignment.package_id =
          (Sbase.packages.get? i).map Package.id ∧
        (l.get? i).map Assignment.timestamp = some i) ∧
      ((Sbase.packages.map Package.id).Nodup →
        ∀ pid ∈ Sbase.packages.map Package.id,
          (l.map Assignment.package_id).count pid = 1)) := by
  have h1 : Sbase.agents ≠ [] := by simp [Sbase]
  have h2 : Sbase.enable_dynamic_agents = false := rfl
  have h3 : ∀ p ∈ Sbase.packages,
      (lookupWarehouse Sbase.warehouses p.warehouse_id).isSome := by
    intro p hp
    have : p = pkg1 := by simpa [Sbase] using hp
    subst this
    rfl
  exact ⟨⟨h1, h2, h3⟩, solve_one_per_package Sbase noDelays h1 h2 h3⟩

/-! ## Claim C1 -/

/-- A solver with zero agents, one package, dynamic agents disabled. -/
def SnoAgents : Solver := ⟨[wh1], [], [pkg1], false, 5, 30, false, []⟩

/-- C1 counterexample: with zero agents, one package and dynamic agents
disabled, `solve()` does not fail with an availability error — it returns a
(non-empty) assignment list whose single entry has agent id `None` and
total distance `float('inf')`.  The code raises no "no available agent"
error anywhere. -/
theorem solve_no_agents_counterexample :
    (SnoAgents.solve noDelays).1 = .ok [⟨none, "P1", "W1", ⊤, 0, 0⟩] := rfl

/-- Invariant: when the active dict's keys are all `None` and dynamic agents
are disabled, every assignment the loop returns carries agent id `None`. -/
theorem solveLoop_none_agents (wh : List Warehouse) (delaysOn : Bool)
    (delays : ℕ → ℝ) :
    ∀ (ps : List Package) (idx : ℕ) (active : List (AgentId × Location))
      (pending : List (ℕ × Agent)),
      (∀ k ∈ active.map Prod.fst, k = none) →
      ∀ l, (solveLoop wh false delaysOn delays ps idx active pending).result = .ok l →
        ∀ a ∈ l, a.agent_id = none
  | [], _, _, _, _, l, hok, a, ha => by
    simp only [solveLoop] at hok
    cases hok
    simp at ha
  | p :: rest, idx, active, pending, hkeys, l, hok, a, ha => by
    have hap : (if false then addPendingAgents idx active pending
        else (active, pending)) = (active, pending) := rfl
    cases hw : lookupWarehouse wh p.warehouse_id with
    | none =>
      rw [solveLoop_cons_of_err hap hw] at hok
      cases hok
    | some w =>
      rw [solveLoop_cons_of_ok hap hw] at hok
      have hbest : (findBest active w.location p.destination).1 = none := by
        rcases findBest_fst_mem_or_none active w.location p.destination with h | h
        · exact h
        · exact hkeys _ h
      cases hrec : (solveLoop wh false delaysOn delays rest (idx + 1)
          (dictInsert active (findBest active w.location p.destination).1
            p.destination) pending).result with
      | error e => rw [hrec] at hok; cases hok
      | ok l' =>
        rw [hrec] at hok
        cases hok
        rcases List.mem_cons.mp ha with rfl | ha
        · exact hbest
        · refine solveLoop_none_agents wh delaysOn delays rest (idx + 1) _ pending
            ?_ l' hrec a ha
          intro k hk
          rcases keys_dictInsert_cases hk with rfl | hk
          · exact hbest
          · exact hkeys k hk

/-- C1 amended: when the active set is empty at a package (zero agents
supplied, dynamic agents disabled), `solve()` does not fail: it still
returns one assignment per package, every assignment carries agent id
`None` (no agent), and the first such assignment records total distance
`float('inf')` — the Python loop then inserts `None` as a key of the
active dict and keeps "assigning" to it. -/
theorem solve_no_agents_amended (S : Solver) (delays : ℕ → ℝ)
    (hagents : S.agents = []) (hdyn : S.enable_dynamic_agents = false)
    (hres : ∀ p ∈ S.packages,
      (lookupWarehouse S.warehouses p.warehouse_id).isSome) :
    ∃ l, (S.solve delays).1 = .ok l ∧ l.length = S.packages.length ∧
      (∀ a ∈ l, a.agent_id = none) ∧
      ∀ p rest, S.packages = p :: rest →
        ∃ hd tl, l = hd :: tl ∧ hd.total_distance = ⊤ := by
  rcases solveLoop_ok_spec S.warehouses S.enable_dynamic_agents S.enable_delays
      delays S.packages 0 (initialActive S.agents) S.pending_agents hres with
    ⟨l, hok, hpid, _, _⟩
  have hlen : l.length = S.packages.length := by
    have := congrArg List.length hpid
    simpa using this
  have hactive : initialActive S.agents = [] := by rw [hagents]; rfl
  have hokS : (S.solve delays).1 = .ok l := hok
  refine ⟨l, hokS, hlen, ?_, ?_⟩
  · have hok' : (solveLoop S.warehouses false S.enable_delays delays S.packages 0
        (initialActive S.agents) S.pending_agents).result = .ok l := by
      rw [← hdyn]; exact hok
    exact solveLoop_none_agents S.warehouses S.enable_delays delays S.packages 0
      (initialActive S.agents) S.pending_agents
      (by rw [hactive]; intro k hk; simp at hk) l hok'
  · intro p rest hps
    rcases Option.isSome_iff_exists.mp (hres p (hps ▸ List.mem_cons_self p rest)) with
      ⟨w, hw⟩
    have hok2 := hok
    rw [hps, hactive] at hok2
    rw [solveLoop_cons_of_ok
      (show (if S.enable_dynamic_agents then addPendingAgents 0 [] S.pending_agents
          else ([], S.pending_agents)) = ([], S.pending_agents) by simp [hdyn])
      hw] at hok2
    simp only [Nat.zero_add] at hok2
    cases hrec : (solveLoop S.warehouses S.enable_dynamic_agents S.enable_delays
        delays rest 1 (dictInsert [] (findBest [] w.location p.destination).1
          p.destination) S.pending_agents).result with
    | error e => rw [hrec] at hok2; cases hok2
    | ok l' =>
      rw [hrec] at hok2
      cases hok2
      exact ⟨_, l', rfl, rfl⟩

/-- Witness for the amended C1 on the concrete solver `SnoAgents`. -/
theorem solve_no_agents_amended_witness :
    (SnoAgents.agents = [] ∧ SnoAgents.enable_dynamic_agents = false ∧
      ∀ p ∈ SnoAgents.packages,
        (lookupWarehouse SnoAgents.warehouses p.warehouse_id).isSome) ∧
    (∃ l, (SnoAgents.solve noDelays).1 = .ok l ∧
      l.length = SnoAgents.packages.length ∧
      (∀ a ∈ l, a.agent_id = none) ∧
      ∀ p rest, SnoAgents.packages = p :: rest →
        ∃ hd tl, l = hd :: tl ∧ hd.total_distance = ⊤) := by
  have h1 : SnoAgents.agents = [] := rfl
  have h2 : SnoAgents.enable_dynamic_agents = false := rfl
  have h3 : ∀ p ∈ SnoAgents.packages,
      (lookupWarehouse SnoAgents.warehouses p.warehouse_id).isSome := by
    intro p hp
    have : p = pkg1 := by simpa [SnoAgents] using hp
    subst this
    rfl
  exact ⟨⟨h1, h2, h3⟩, solve_no_agents_amended SnoAgents noDelays h1 h2 h3⟩

/-! ## Claim C2 -/

/-- C2: for a package processed by the solve loop (generic in the loop
state, hence covering every package `solve()` processes), with a non-empty
active set, the recorded assignment's agent is an active agent whose trip
distance — current tracked position → warehouse → destination — is minimal
among all active agents; it is the first agent in the active dict's
insertion-iteration order attaining that minimum (earlier agents have
strictly greater distance); and the recorded `total_distance` is exactly
that minimal trip distance. -/
theorem solve_selects_min (wh : List Warehouse) (delaysOn : Bool)
    (delays : ℕ → ℝ) (p : Package) (idx : ℕ)
    (active : List (AgentId × Location)) (w : Warehouse)
    (hw : lookupWarehouse wh p.warehouse_id = some w)
    (hne : active ≠ []) :
    ∃ j : Fin active.length,
      solveStep wh delaysOn delays p idx active =
        .ok (⟨(active.get j).1, p.id, p.warehouse_id,
              (calculate_trip_distance (active.get j).2 w.location
                p.destination : FloatV),
              (if delaysOn then delays idx else 0), idx⟩,
          dictInsert active (active.get j).1 p.destination) ∧
      (∀ q ∈ active,
        calculate_trip_distance (active.get j).2 w.location p.destination ≤
          calculate_trip_distance q.2 w.location p.destination) ∧
      (∀ k : Fin active.length, (k : ℕ) < (j : ℕ) →
        calculate_trip_distance (active.get j).2 w.location p.destination <
          calculate_trip_distance (active.get k).2 w.location p.destination) := by
  rcases findBest_spec active w.location p.destination hne with ⟨j, h1, h2, h3⟩
  refine ⟨j, ?_, h2, h3⟩
  rw [solveStep_ok wh delaysOn delays p idx active w hw, h1]

/-- Witness for C2: one active agent, one package. -/
theorem solve_selects_min_witness :
    (lookupWarehouse [wh1] pkg1.warehouse_id = some wh1 ∧
      ([(some "A1", (⟨1, 0⟩ : Location))] : List (AgentId × Location)) ≠ []) ∧
    (∃ j : Fin ([(some "A1", (⟨1, 0⟩ : Location))] :
        List (AgentId × Location)).length,
      solveStep [wh1] false noDelays pkg1 0 [(some "A1", ⟨1, 0⟩)] =
        .ok (⟨(([(some "A1", (⟨1, 0⟩ : Location))] :
              List (AgentId × Location)).get j).1, pkg1.id, pkg1.warehouse_id,
              (calculate_trip_distance (([(some "A1", (⟨1, 0⟩ : Location))] :
                List (AgentId × Location)).get j).2 wh1.location
                pkg1.destination : FloatV),
              (if false then noDelays 0 else 0), 0⟩,
          dictInsert [(some "A1", ⟨1, 0⟩)]
            (([(some "A1", (⟨1, 0⟩ : Location))] :
              List (AgentId × Location)).get j).1 pkg1.destination) ∧
      (∀ q ∈ ([(some "A1", (⟨1, 0⟩ : Location))] : List (AgentId × Location)),
        calculate_trip_distance (([(some "A1", (⟨1, 0⟩ : Location))] :
            List (AgentId × Location)).get j).2 wh1.location pkg1.destination ≤
          calculate_trip_distance q.2 wh1.location pkg1.destination) ∧
      (∀ k : Fin ([(some "A1", (⟨1, 0⟩ : Location))] :
          List (AgentId × Location)).length, (k : ℕ) < (j : ℕ) →
        calculate_trip_distance (([(some "A1", (⟨1, 0⟩ : Location))] :
            List (AgentId × Location)).get j).2 wh1.location pkg1.destination <
          calculate_trip_distance (([(some "A1", (⟨1, 0⟩ : Location))] :
            List (AgentId × Location)).get k).2 wh1.location pkg1.destination)) := by
  have h1 : lookupWarehouse [wh1] pkg1.warehouse_id = some wh1 := rfl
  have h2 : ([(some "A1", (⟨1, 0⟩ : Location))] :
      List (AgentId × Location)) ≠ [] := by simp
  exact ⟨⟨h1, h2⟩,
    solve_selects_min [wh1] false noDelays pkg1 0 [(some "A1", ⟨1, 0⟩)] wh1 h1 h2⟩

/-! ## Claim C4 -/

/-- With dynamic agents disabled the loop never touches the pending queue. -/
theorem solveLoop_pending_of_not_dyn (wh : List Warehouse) (delaysOn : Bool)
    (delays : ℕ → ℝ) :
    ∀ (ps : List Package) (idx : ℕ) (active : List (AgentId × Location))
      (pending : List (ℕ × Agent)),
      (solveLoop wh false delaysOn delays ps idx active pending).pendingOut = pending
  | [], _, _, _ => rfl
  | p :: rest, idx, active, pending => by
    have hap : (if false then addPendingAgents idx active pending
        else (active, pending)) = (active, pending) := rfl
    cases hw : lookupWarehouse wh p.warehouse_id with
    | none => rw [solveLoop_cons_of_err hap hw]
    | some w =>
      rw [solveLoop_cons_of_ok hap hw]
      exact solveLoop_pending_of_not_dyn wh delaysOn delays rest (idx + 1) _ pending

/-- An empty pending queue stays empty through the loop. -/
theorem solveLoop_pending_nil (wh : List Warehouse) (dyn delaysOn : Bool)
    (delays : ℕ → ℝ) :
    ∀ (ps : List Package) (idx : ℕ) (active : List (AgentId × Location)),
      (solveLoop wh dyn delaysOn delays ps idx active []).pendingOut = []
  | [], _, _ => rfl
  | p :: rest, idx, active => by
    have hap : (if dyn then addPendingAgents idx active []
        else (active, [])) = (active, []) := by
      cases dyn <;> rfl
    cases hw : lookupWarehouse wh p.warehouse_id with
    | none => rw [solveLoop_cons_of_err hap hw]
    | some w =>
      rw [solveLoop_cons_of_ok hap hw]
      exact solveLoop_pending_nil wh dyn delaysOn delays rest (idx + 1) _

/-- With delays disabled the loop never consults the random oracle. -/
theorem solveLoop_delays_irrelevant (wh : List Warehouse) (dyn : Bool)
    (d1 d2 : ℕ → ℝ) :
    ∀ (ps : List Package) (idx : ℕ) (active : List (AgentId × Location))
      (pending : List (ℕ × Agent)),
      solveLoop wh dyn false d1 ps idx active pending =
        solveLoop wh dyn false d2 ps idx active pending
  | [], _, _, _ => rfl
  | p :: rest, idx, active, pending => by
    obtain ⟨act1, pend1, hap⟩ :
        ∃ a b, (if dyn then addPendingAgents idx active pending
          else (active, pending)) = (a, b) :=
      ⟨_, _, rfl⟩
    cases hw : lookupWarehouse wh p.warehouse_id with
    | none => rw [solveLoop_cons_of_err hap hw, solveLoop_cons_of_err hap hw]
    | some w =>
      rw [solveLoop_cons_of_ok hap hw, solveLoop_cons_of_ok hap hw,
        solveLoop_delays_irrelevant wh dyn d1 d2 rest (idx + 1)
          (dictInsert act1 (findBest act1 w.location p.destination).1
            p.destination) pend1]
      simp only [Bool.false_eq_true, if_false]

/-- C4 amended: with delays disabled, two successive `solve()` calls on the
same engine return identical assignment lists (even under different random
draws) **provided** no registered dynamic agent is pending — e.g. when
dynamic agents are disabled.  (The unamended claim fails: a first call that
admits a pending dynamic agent consumes it from `self.pending_agents`, and
the rebuilt active set of the second call no longer contains it; see the
counterexample.)  The first call also leaves the engine state unchanged. -/
theorem solve_repeat_amended (S : Solver) (d1 d2 : ℕ → ℝ)
    (hdelays : S.enable_delays = false)
    (hp : S.enable_dynamic_agents = false ∨ S.pending_agents = []) :
    (S.solve d1).2 = S ∧ ((S.solve d1).2.solve d2).1 = (S.solve d1).1 := by
  have hpend : (solveLoop S.warehouses S.enable_dynamic_agents S.enable_delays d1
      S.packages 0 (initialActive S.agents) S.pending_agents).pendingOut =
      S.pending_agents := by
    rcases hp with hdyn | hnil
    · rw [hdyn]
      exact solveLoop_pending_of_not_dyn _ _ _ _ _ _ _
    · rw [hnil]
      exact solveLoop_pending_nil _ _ _ _ _ _ _
  have hstate : (S.solve d1).2 = S := by
    show { S with pending_agents := _ } = S
    rw [hpend]
  refine ⟨hstate, ?_⟩
  rw [hstate]
  show (solveLoop S.warehouses S.enable_dynamic_agents S.enable_delays d2
      S.packages 0 (initialActive S.agents) S.pending_agents).result = _
  have h2 : (solveLoop S.warehouses S.enable_dynamic_agents false d2
      S.packages 0 (initialActive S.agents) S.pending_agents) =
      (solveLoop S.warehouses S.enable_dynamic_agents false d1
        S.packages 0 (initialActive S.agents) S.pending_agents) :=
    solveLoop_delays_irrelevant _ _ d2 d1 _ _ _ _
  rw [hdelays, h2, ← hdelays]
  rfl

/-- Witness for the amended C4 on the concrete solver `Sbase`. -/
theorem solve_repeat_amended_witness :
    (Sbase.enable_delays = false ∧
      (Sbase.enable_dynamic_agents = false ∨ Sbase.pending_agents = [])) ∧
    ((Sbase.solve noDelays).2 = Sbase ∧
      ((Sbase.solve noDelays).2.solve noDelays).1 = (Sbase.solve noDelays).1) := by
  have h1 : Sbase.enable_delays = false := rfl
  have h2 : Sbase.enable_dynamic_agents = false ∨ Sbase.pending_agents = [] :=
    Or.inl rfl
  exact ⟨⟨h1, h2⟩, solve_repeat_amended Sbase noDelays noDelays h1 h2⟩

/-! ### Concrete evaluation of a dynamic-agent run -/

/-- The dynamic agent `D1` at the origin. -/
def dynAgent : Agent := ⟨"D1", ⟨0, 0⟩⟩

/-- Engine with static agent `A1` at `(1,0)`, one package `P1` to the
origin, dynamic agents enabled, and `D1` registered with threshold 0. -/
def Sdyn : Solver := ⟨[wh1], [agA], [pkg1], false, 5, 30, true, [(0, dynAgent)]⟩

theorem bestStep_lt {w dest : Location} {best : AgentId × FloatV}
    {p : AgentId × Location}
    (h : (calculate_trip_distance p.2 w dest : FloatV) < best.2) :
    bestStep w dest best p = (p.1, (calculate_trip_distance p.2 w dest : FloatV)) := by
  unfold bestStep
  rw [if_pos h]

theorem bestStep_not_lt {w dest : Location} {best : AgentId × FloatV}
    {p : AgentId × Location}
    (h : ¬ (calculate_trip_distance p.2 w dest : FloatV) < best.2) :
    bestStep w dest best p = best := by
  unfold bestStep
  rw [if_neg h]

theorem eudist_zero : euclidean_distance ⟨0, 0⟩ ⟨0, 0⟩ = 0 := by
  show Real.sqrt (((0 : ℝ) - 0) ^ 2 + ((0 : ℝ) - 0) ^ 2) = 0
  rw [show ((0 : ℝ) - 0) ^ 2 + ((0 : ℝ) - 0) ^ 2 = 0 by norm_num, Real.sqrt_zero]

theorem eudist_one : euclidean_distance ⟨1, 0⟩ ⟨0, 0⟩ = 1 := by
  show Real.sqrt (((1 : ℝ) - 0) ^ 2 + ((0 : ℝ) - 0) ^ 2) = 1
  rw [show ((1 : ℝ) - 0) ^ 2 + ((0 : ℝ) - 0) ^ 2 = 1 by norm_num, Real.sqrt_one]

theorem trip_A1 : calculate_trip_distance ⟨1, 0⟩ ⟨0, 0⟩ ⟨0, 0⟩ = 1 := by
  rw [calculate_trip_distance, eudist_one, eudist_zero]
  ring

theorem trip_D1 : calculate_trip_distance ⟨0, 0⟩ ⟨0, 0⟩ ⟨0, 0⟩ = 0 := by
  rw [calculate_trip_distance, eudist_zero]
  ring

theorem findBest_two :
    findBest [(some "A1", ⟨1, 0⟩), (some "D1", ⟨0, 0⟩)] wh1.location
      pkg1.destination = (some "D1", ((0 : ℝ) : FloatV)) := by
  show findBest [(some "A1", ⟨1, 0⟩), (some "D1", ⟨0, 0⟩)]
    (⟨0, 0⟩ : Location) (⟨0, 0⟩ : Location) = (some "D1", ((0 : ℝ) : FloatV))
  have h1 : ((calculate_trip_distance ((some "A1", (⟨1, 0⟩ : Location))).2
      (⟨0, 0⟩ : Location) (⟨0, 0⟩ : Location) : ℝ) : FloatV) <
      ((none, (⊤ : FloatV)) : AgentId × FloatV).2 :=
    WithTop.coe_lt_top _
  have h2 : ((calculate_trip_distance ((some "D1", (⟨0, 0⟩ : Location))).2
      (⟨0, 0⟩ : Location) (⟨0, 0⟩ : Location) : ℝ) : FloatV) <
      (((some "A1" : AgentId),
        ((calculate_trip_distance ((some "A1", (⟨1, 0⟩ : Location))).2
          (⟨0, 0⟩ : Location) (⟨0, 0⟩ : Location) : ℝ) : FloatV))).2 := by
    show ((calculate_trip_distance (⟨0, 0⟩ : Location) ⟨0, 0⟩ ⟨0, 0⟩ : ℝ) : FloatV) <
      ((calculate_trip_distance (⟨1, 0⟩ : Location) ⟨0, 0⟩ ⟨0, 0⟩ : ℝ) : FloatV)
    rw [trip_A1, trip_D1]
    exact WithTop.coe_lt_coe.mpr (by norm_num)
  rw [findBest, List.foldl_cons, bestStep_lt h1, List.foldl_cons,
    bestStep_lt h2, List.foldl_nil]
  show (some "D1", ((calculate_trip_distance (⟨0, 0⟩ : Location)
    ⟨0, 0⟩ ⟨0, 0⟩ : ℝ) : FloatV)) = (some "D1", ((0 : ℝ) : FloatV))
  rw [trip_D1]

theorem findBest_one :
    findBest [(some "A1", ⟨1, 0⟩)] wh1.location pkg1.destination =
      (some "A1", ((1 : ℝ) : FloatV)) := by
  show findBest [(some "A1", ⟨1, 0⟩)] (⟨0, 0⟩ : Location) (⟨0, 0⟩ : Location) =
    (some "A1", ((1 : ℝ) : FloatV))
  have h1 : ((calculate_trip_distance ((some "A1", (⟨1, 0⟩ : Location))).2
      (⟨0, 0⟩ : Location) (⟨0, 0⟩ : Location) : ℝ) : FloatV) <
      ((none, (⊤ : FloatV)) : AgentId × FloatV).2 :=
    WithTop.coe_lt_top _
  rw [findBest, List.foldl_cons, bestStep_lt h1, List.foldl_nil]
  show (some "A1", ((calculate_trip_distance (⟨1, 0⟩ : Location)
    ⟨0, 0⟩ ⟨0, 0⟩ : ℝ) : FloatV)) = (some "A1", ((1 : ℝ) : FloatV))
  rw [trip_A1]

/-- The engine state `solve()` leaves behind after the first call on
`Sdyn`: the admitted dynamic agent has been consumed from the pending
queue. -/
def Sdyn2 : Solver := ⟨[wh1], [agA], [pkg1], false, 5, 30, true, []⟩

/-- First call on `Sdyn`: `D1` is admitted (threshold 0 ≤ index 0), wins the
selection with distance 0 against `A1`'s distance 1, and is removed from
the pending queue. -/
theorem Sdyn_first_call :
    Sdyn.solve noDelays =
      (.ok [⟨some "D1", "P1", "W1", ((0 : ℝ) : FloatV), 0, 0⟩], Sdyn2) := by
  have hap : (if Sdyn.enable_dynamic_agents then
      addPendingAgents 0 (initialActive Sdyn.agents) Sdyn.pending_agents
      else (initialActive Sdyn.agents, Sdyn.pending_agents)) =
      ([(some "A1", ⟨1, 0⟩), (some "D1", ⟨0, 0⟩)], []) := rfl
  have hw : lookupWarehouse Sdyn.warehouses pkg1.warehouse_id = some wh1 := rfl
  have hloop : solveLoop Sdyn.warehouses Sdyn.enable_dynamic_agents
      Sdyn.enable_delays noDelays Sdyn.packages 0 (initialActive Sdyn.agents)
      Sdyn.pending_agents =
      ⟨.ok [⟨some "D1", "P1", "W1", ((0 : ℝ) : FloatV), 0, 0⟩], [],
        [[(some "A1", ⟨1, 0⟩), (some "D1", ⟨0, 0⟩)]]⟩ := by
    rw [show Sdyn.packages = [pkg1] from rfl, solveLoop_cons_of_ok hap hw,
      findBest_two]
    rfl
  simp only [Solver.solve, hloop]
  rfl

/-- Second call, on the engine state left by the first: the pending queue
is empty, the active set is rebuilt from `self.agents` alone, and `A1` is
chosen with distance 1. -/
theorem Sdyn_second_call :
    Sdyn2.solve noDelays =
      (.ok [⟨some "A1", "P1", "W1", ((1 : ℝ) : FloatV), 0, 0⟩], Sdyn2) := by
  have hap : (if Sdyn2.enable_dynamic_agents then
      addPendingAgents 0 (initialActive Sdyn2.agents) Sdyn2.pending_agents
      else (initialActive Sdyn2.agents, Sdyn2.pending_agents)) =
      ([(some "A1", ⟨1, 0⟩)], []) := rfl
  have hw : lookupWarehouse Sdyn2.warehouses pkg1.warehouse_id = some wh1 := rfl
  have hloop : solveLoop Sdyn2.warehouses Sdyn2.enable_dynamic_agents
      Sdyn2.enable_delays noDelays Sdyn2.packages 0 (initialActive Sdyn2.agents)
      Sdyn2.pending_agents =
      ⟨.ok [⟨some "A1", "P1", "W1", ((1 : ℝ) : FloatV), 0, 0⟩], [],
        [[(some "A1", ⟨1, 0⟩)]]⟩ := by
    rw [show Sdyn2.packages = [pkg1] from rfl, solveLoop_cons_of_ok hap hw,
      findBest_one]
    rfl
  simp only [Solver.solve, hloop]
  rfl

/-- C4 counterexample: on the engine `Sdyn` (identical inputs, delays
disabled, one registered dynamic agent) two successive `solve()` calls
disagree — the first assigns `P1` to the admitted dynamic agent `D1` with
distance 0, the second (the pending queue having been consumed) assigns it
to `A1` with distance 1. -/
theorem solve_second_call_differs_counterexample :
    ((Sdyn.solve noDelays).2.solve noDelays).1 ≠ (Sdyn.solve noDelays).1 := by
  rw [Sdyn_first_call]
  show (Sdyn2.solve noDelays).1 ≠ _
  rw [Sdyn_second_call]
  intro h
  have h1 : ([⟨some "A1", "P1", "W1", ((1 : ℝ) : FloatV), 0, 0⟩] :
      List Assignment) =
      [⟨some "D1", "P1", "W1", ((0 : ℝ) : FloatV), 0, 0⟩] :=
    Except.ok.inj h
  have h2 := congrArg (fun l => l.map Assignment.agent_id) h1
  simp at h2

/-! ## Claim C5 -/

theorem any_fst_eq_mem {β : Type} (d : List (String × β)) (k : String) :
    (d.any (fun p => p.1 == k)) = true ↔ k ∈ d.map Prod.fst := by
  simp only [List.any_eq_true, beq_iff_eq, List.mem_map]

/-- Full characterisation of the `result[agent_id].append(...)` loop shared
by `get_assignments_by_agent` and `format_output`: it succeeds exactly when
every assignment's agent id is a key of the initial dict, preserves the key
list, and each key's final value is its initial value followed by the
images of its assignments in list (solve) order. -/
theorem appendByAgent_foldlM {β : Type} (f : Assignment → β) :
    ∀ (assignments : List Assignment) (r : List (String × List β)),
      (∀ a ∈ assignments, ∃ s, a.agent_id = some s ∧ s ∈ r.map Prod.fst) →
      ∃ m, assignments.foldlM (appendByAgent f) r = some m ∧
        m.map Prod.fst = r.map Prod.fst ∧
        ∀ pr ∈ m, ∃ pr0 ∈ r, pr.1 = pr0.1 ∧
          pr.2 = pr0.2 ++
            (assignments.filter (fun a => a.agent_id == some pr.1)).map f
  | [], r, _ => ⟨r, rfl, rfl, fun pr hpr => ⟨pr, hpr, rfl, by simp⟩⟩
  | a :: rest, r, hall => by
    rcases hall a (List.mem_cons_self a rest) with ⟨aid, haid, hmem⟩
    have hany : (r.any (fun p => p.1 == aid)) = true :=
      (any_fst_eq_mem r aid).mpr hmem
    have hstep : appendByAgent f r a =
        some (r.map (fun p => if p.1 == aid then (p.1, p.2 ++ [f a]) else p)) := by
      unfold appendByAgent
      rw [haid]
      exact if_pos hany
    have hkeys : (r.map (fun p =>
        if p.1 == aid then (p.1, p.2 ++ [f a]) else p)).map Prod.fst =
        r.map Prod.fst := by
      rw [List.map_map]
      refine List.map_congr_left ?_
      intro p _
      by_cases h : (p.1 == aid) = true
      · simp only [Function.comp_apply, if_pos h]
      · simp only [Function.comp_apply, if_neg h]
    have hall' : ∀ b ∈ rest, ∃ s, b.agent_id = some s ∧
        s ∈ (r.map (fun p =>
          if p.1 == aid then (p.1, p.2 ++ [f a]) else p)).map Prod.fst := by
      intro b hb
      rcases hall b (List.mem_cons_of_mem a hb) with ⟨s, hs1, hs2⟩
      exact ⟨s, hs1, by rw [hkeys]; exact hs2⟩
    rcases appendByAgent_foldlM f rest
        (r.map (fun p => if p.1 == aid then (p.1, p.2 ++ [f a]) else p))
        hall' with ⟨m, hm, hkeys2, hval⟩
    refine ⟨m, ?_, by rw [hkeys2, hkeys], ?_⟩
    · rw [List.foldlM_cons, hstep]
      exact hm
    · intro pr hpr
      rcases hval pr hpr with ⟨pr0h, hpr0h, heq1, heq2⟩
      rcases List.mem_map.mp hpr0h with ⟨pr0, hpr0, hupd⟩
      by_cases hcase : (pr0.1 == aid) = true
      · have hfst : pr.1 = pr0.1 := by
          rw [heq1, ← hupd, if_pos hcase]
        have hfa : (a.agent_id == some pr.1) = true := by
          rw [haid, hfst]
          simp only [beq_iff_eq, Option.some.injEq]
          exact (beq_iff_eq.mp hcase).symm
        have hfiltereq : List.filter (fun b => b.agent_id == some pr.1) (a :: rest) =
            a :: List.filter (fun b => b.agent_id == some pr.1) rest :=
          List.filter_cons_of_pos hfa
        refine ⟨pr0, hpr0, hfst, ?_⟩
        rw [heq2, ← hupd, if_pos hcase, hfiltereq, List.map_cons,
          List.append_assoc]
        rfl
      · have hfst : pr.1 = pr0.1 := by
          rw [heq1, ← hupd, if_neg hcase]
        have hfa : ¬ (a.agent_id == some pr.1) = true := by
          rw [haid, hfst]
          simp only [beq_iff_eq, Option.some.injEq]
          intro h
          exact hcase (beq_iff_eq.mpr h.symm)
        have hfiltereq : List.filter (fun b => b.agent_id == some pr.1) (a :: rest) =
            List.filter (fun b => b.agent_id == some pr.1) rest :=
          List.filter_cons_of_neg hfa
        refine ⟨pr0, hpr0, hfst, ?_⟩
        rw [heq2, ← hupd, if_neg hcase, hfiltereq]

/-- C5 counterexample: a run of `solve()` with a dynamic agent produces an
assignment list on which `get_assignments_by_agent` raises `KeyError`
(modelled as `none`): the chosen dynamic agent `D1` is not among
`self.agents`' keys.  In particular the result's key set does not include
dynamically admitted agents, and the operation can fail on lists `solve()`
produces. -/
theorem group_by_agent_fails_counterexample :
    (Sdyn.solve noDelays).1 =
      .ok [⟨some "D1", "P1", "W1", ((0 : ℝ) : FloatV), 0, 0⟩] ∧
    Sdyn.get_assignments_by_agent
      [⟨some "D1", "P1", "W1", ((0 : ℝ) : FloatV), 0, 0⟩] = none := by
  constructor
  · rw [Sdyn_first_call]
  · rfl

/-- C5 amended: `get_assignments_by_agent` returns a mapping whose key set
is exactly the initially supplied agent ids (in insertion order, including
agents with zero assignments) with each agent's assignments in solve order
— provided every assignment's agent id is one of those initial ids; an
assignment naming a dynamically admitted agent (absent from `self.agents`)
or the `None` agent makes it raise `KeyError` instead. -/
theorem group_by_agent_amended (S : Solver) (assignments : List Assignment)
    (hall : ∀ a ∈ assignments, ∃ s, a.agent_id = some s ∧
      s ∈ S.agents.map Agent.id) :
    ∃ m, S.get_assignments_by_agent assignments = some m ∧
      m.map Prod.fst = S.agents.map Agent.id ∧
      ∀ pr ∈ m, pr.2 = assignments.filter (fun a => a.agent_id == some pr.1) := by
  have hinit : ((S.agents.map (fun a => (a.id,
      ([] : List Assignment)))).map Prod.fst) = S.agents.map Agent.id := by
    rw [List.map_map]
    rfl
  rcases appendByAgent_foldlM (fun a => a) assignments
      (S.agents.map (fun a => (a.id, []))) (by
        intro a ha
        rcases hall a ha with ⟨s, hs1, hs2⟩
        exact ⟨s, hs1, by rw [hinit]; exact hs2⟩) with
    ⟨m, hm, hkeys, hval⟩
  refine ⟨m, hm, by rw [hkeys, hinit], ?_⟩
  intro pr hpr
  rcases hval pr hpr with ⟨pr0, hpr0, _, heq2⟩
  rcases List.mem_map.mp hpr0 with ⟨ag, _, hag⟩
  have hnil : pr0.2 = ([] : List Assignment) := by rw [← hag]
  rw [heq2, hnil, List.nil_append]
  simp

/-- Witness for the amended C5 on `Sbase` with one assignment for `A1`. -/
theorem group_by_agent_amended_witness :
    (∀ a ∈ ([⟨some "A1", "P1", "W1", ((1 : ℝ) : FloatV), 0, 0⟩] :
        List Assignment), ∃ s, a.agent_id = some s ∧
      s ∈ Sbase.agents.map Agent.id) ∧
    (∃ m, Sbase.get_assignments_by_agent
        [⟨some "A1", "P1", "W1", ((1 : ℝ) : FloatV), 0, 0⟩] = some m ∧
      m.map Prod.fst = Sbase.agents.map Agent.id ∧
      ∀ pr ∈ m, pr.2 = ([⟨some "A1", "P1", "W1", ((1 : ℝ) : FloatV), 0, 0⟩] :
        List Assignment).filter (fun a => a.agent_id == some pr.1)) := by
  have hall : ∀ a ∈ ([⟨some "A1", "P1", "W1", ((1 : ℝ) : FloatV), 0, 0⟩] :
      List Assignment), ∃ s, a.agent_id = some s ∧
      s ∈ Sbase.agents.map Agent.id := by
    intro a ha
    have : a = ⟨some "A1", "P1", "W1", ((1 : ℝ) : FloatV), 0, 0⟩ := by
      simpa using ha
    subst this
    exact ⟨"A1", rfl, by simp [Sbase, agA]⟩
  exact ⟨hall, group_by_agent_amended Sbase _ hall⟩

/-! ## Claim C9 -/

/-- An assignment whose exact trip distance `3/500 = 0.006` is not a
multiple of `0.01`. -/
def a9 : Assignment := ⟨some "A1", "P1", "W1", ((3 / 500 : ℝ) : FloatV), 0, 0⟩

theorem round2_3500 : round2 (3 / 500 : ℝ) = 1 / 100 := by
  have hfloor : ⌊(11 / 10 : ℝ)⌋ = 1 := by
    rw [Int.floor_eq_iff]
    constructor
    · norm_num
    · norm_num
  rw [round2, show (3 / 500 : ℝ) * 100 = 11 / 10 - 1 / 2 by norm_num, round_eq,
    show (11 / 10 : ℝ) - 1 / 2 + 1 / 2 = 11 / 10 by norm_num, hfloor]
  norm_num

/-- C9 counterexample: the reported summary total is the rounded value
`round(total, 2)`, not the exact sum of assignment distances: for a single
assignment of distance `0.006` the summary reports `0.01`. -/
theorem summary_rounding_counterexample :
    (format_output [a9] [wh1] [agA] [pkg1]).map Output.total_distance =
      some ((1 / 100 : ℝ) : FloatV) ∧
    ([a9].map (fun (a : Assignment) => a.total_distance)).sum =
      ((3 / 500 : ℝ) : FloatV) ∧
    ((1 / 100 : ℝ) : FloatV) ≠ ((3 / 500 : ℝ) : FloatV) := by
  have hsum : ([a9].map (fun (a : Assignment) => a.total_distance)).sum =
      ((3 / 500 : ℝ) : FloatV) := by
    simp [a9]
  refine ⟨?_, hsum, ?_⟩
  · have hfmt : (format_output [a9] [wh1] [agA] [pkg1]).map Output.total_distance =
        some (fround2 (([a9].map (fun (a : Assignment) =>
          a.total_distance)).sum)) := rfl
    rw [hfmt, hsum]
    rw [show fround2 ((3 / 500 : ℝ) : FloatV) = ((round2 (3 / 500 : ℝ) : ℝ) : FloatV)
      from rfl]
    rw [round2_3500]
  · intro h
    have := WithTop.coe_inj.mp h
    norm_num at this

/-- C9 amended: the summary succeeds (whenever every assignment's agent is
a known initial agent, otherwise the grouping raises `KeyError`); its
reported total distance is the exact sum of assignment distances — i.e.
`calculate_total_distance` — **rounded to 2 decimals**, and its average
distance per package is that exact sum divided by the package count, again
rounded to 2 decimals, with the average equal to 0 (not a division fault)
when the package count is 0. -/
theorem format_output_summary (assignments : List Assignment)
    (warehouses : List Warehouse) (agents : List Agent) (packages : List Package)
    (hall : ∀ a ∈ assignments, ∃ s, a.agent_id = some s ∧
      s ∈ agents.map Agent.id) :
    ∃ o, format_output assignments warehouses agents packages = some o ∧
      (∀ T : Solver, o.total_distance =
        fround2 (T.calculate_total_distance assignments)) ∧
      o.statistics.average_distance_per_package =
        (if packages.isEmpty then (0 : FloatV) else
          fround2 (fdivNat ((assignments.map Assignment.total_distance).sum)
            packages.length)) ∧
      (packages = [] → o.statistics.average_distance_per_package = 0) := by
  have hinit : ((agents.map (fun a => (a.id,
      ([] : List AssignmentEntry)))).map Prod.fst) = agents.map Agent.id := by
    rw [List.map_map]
    rfl
  rcases appendByAgent_foldlM (fun a => (⟨a.package_id, a.warehouse_id,
      fround2 a.total_distance, round2 a.delay⟩ : AssignmentEntry)) assignments
      (agents.map (fun a => (a.id, []))) (by
        intro a ha
        rcases hall a ha with ⟨s, hs1, hs2⟩
        exact ⟨s, hs1, by rw [hinit]; exact hs2⟩) with
    ⟨m, hm, _, _⟩
  refine ⟨⟨fround2 ((assignments.map (fun (a : Assignment) =>
      a.total_distance)).sum), m,
    ⟨packages.length, agents.length, warehouses.length,
      if packages.isEmpty then (0 : FloatV) else
        fround2 (fdivNat ((assignments.map (fun (a : Assignment) =>
          a.total_distance)).sum) packages.length)⟩⟩, ?_, ?_, ?_, ?_⟩
  · simp only [format_output]
    rw [hm]
  · intro T
    rfl
  · rfl
  · intro hpk
    subst hpk
    rfl

/-- Witness for the amended C9: empty assignment list, empty package list
(exercising the zero-package guard). -/
theorem format_output_summary_witness :
    (∀ a ∈ ([] : List Assignment), ∃ s, a.agent_id = some s ∧
      s ∈ [agA].map Agent.id) ∧
    (∃ o, format_output [] [wh1] [agA] [] = some o ∧
      (∀ T : Solver, o.total_distance =
        fround2 (T.calculate_total_distance [])) ∧
      o.statistics.average_distance_per_package =
        (if ([] : List Package).isEmpty then (0 : FloatV) else
          fround2 (fdivNat ((([] : List Assignment).map
            Assignment.total_distance).sum) ([] : List Package).length)) ∧
      (([] : List Package) = [] →
        o.statistics.average_distance_per_package = 0)) := by
  have hall : ∀ a ∈ ([] : List Assignment), ∃ s, a.agent_id = some s ∧
      s ∈ [agA].map Agent.id := by
    intro a ha
    simp at ha
  exact ⟨hall, format_output_summary [] [wh1] [agA] [] hall⟩

/-! ## Claim C8 -/

/-- A fold of dictInsert admissions whose keys all differ from `aid` leaves
`aid`'s tracked position unchanged. -/
theorem admit_foldl_lookup_ne :
    ∀ (l : List (ℕ × Agent)) (act : List (AgentId × Location)) {aid : AgentId},
      (∀ q ∈ l, some q.2.id ≠ aid) →
      lookupD (l.foldl (fun act q => dictInsert act (some q.2.id) q.2.location)
        act) aid = lookupD act aid
  | [], _, _, _ => rfl
  | q :: t, act, aid, hf => by
    rw [List.foldl_cons,
      admit_foldl_lookup_ne t _ (fun q' hq' => hf q' (List.mem_cons_of_mem _ hq')),
      lookupD_dictInsert_ne _ _ _ (fun h => hf q (List.mem_cons_self _ _) h.symm)]

/-- Dynamic admission with ids all different from `aid` leaves `aid`'s
tracked position unchanged. -/
theorem addPendingAgents_lookup_ne (idx : ℕ) (active : List (AgentId × Location))
    (pending : List (ℕ × Agent)) {aid : AgentId}
    (hf : ∀ q ∈ pending, some q.2.id ≠ aid) :
    lookupD (addPendingAgents idx active pending).1 aid = lookupD active aid :=
  admit_foldl_lookup_ne _ _ (fun q hq => hf q (List.mem_filter.mp hq).1)

/-- While an agent receives no further assignment (and no pending dynamic
agent shares its id, the spec's id-uniqueness invariant), its tracked
position in every later selection map of the run stays what it was — in any
configuration, dynamic agents enabled or not. -/
theorem not_chosen_position_persists (wh : List Warehouse) (dyn delaysOn : Bool)
    (delays : ℕ → ℝ) :
    ∀ (ps : List Package) (idx : ℕ) (active : List (AgentId × Location))
      (pending : List (ℕ × Agent)) (aid : AgentId) (loc : Location),
      lookupD active aid = some loc →
      (∀ q ∈ pending, some q.2.id ≠ aid) →
      ∀ l, (solveLoop wh dyn delaysOn delays ps idx active pending).result = .ok l →
        (∀ a ∈ l, a.agent_id ≠ aid) →
        ∀ tr ∈ (solveLoop wh dyn delaysOn delays ps idx active pending).trace,
          lookupD tr aid = some loc
  | [], _, _, _, _, _, _, _, _, _, _, tr, htr => by
    simp only [solveLoop] at htr
    simp at htr
  | p :: rest, idx, active, pending, aid, loc, hloc, hpf, l, hok, hnot, tr, htr => by
    obtain ⟨act1, pend1, hap⟩ :
        ∃ a b, (if dyn then addPendingAgents idx active pending
          else (active, pending)) = (a, b) :=
      ⟨_, _, rfl⟩
    have hact1 : lookupD act1 aid = some loc := by
      cases hdyn : dyn with
      | false =>
        rw [hdyn] at hap
        simp only [Bool.false_eq_true, if_false] at hap
        injection hap with h1 _
        rw [← h1]
        exact hloc
      | true =>
        rw [hdyn] at hap
        simp only [if_true] at hap
        have h1 : act1 = (addPendingAgents idx active pending).1 := by
          have := congrArg Prod.fst hap
          simpa using this.symm
        rw [h1, addPendingAgents_lookup_ne idx active pending hpf]
        exact hloc
    have hpf1 : ∀ q ∈ pend1, some q.2.id ≠ aid := by
      cases hdyn : dyn with
      | false =>
        rw [hdyn] at hap
        simp only [Bool.false_eq_true, if_false] at hap
        injection hap with _ h2
        rw [← h2]
        exact hpf
      | true =>
        rw [hdyn] at hap
        simp only [if_true] at hap
        have h2 : pend1 = (addPendingAgents idx active pending).2 := by
          have := congrArg Prod.snd hap
          simpa using this.symm
        intro q hq
        rw [h2] at hq
        exact hpf q (addPendingAgents_snd_sub active hq).1
    cases hw : lookupWarehouse wh p.warehouse_id with
    | none =>
      rw [solveLoop_cons_of_err hap hw] at hok
      cases hok
    | some w =>
      rw [solveLoop_cons_of_ok hap hw] at hok htr
      cases hrec : (solveLoop wh dyn delaysOn delays rest (idx + 1)
          (dictInsert act1 (findBest act1 w.location p.destination).1
            p.destination) pend1).result with
      | error e => rw [hrec] at hok; cases hok
      | ok l' =>
        rw [hrec] at hok
        cases hok
        have hbest : (findBest act1 w.location p.destination).1 ≠ aid :=
          hnot _ (List.mem_cons_self _ _)
        have hloc' : lookupD (dictInsert act1
            (findBest act1 w.location p.destination).1 p.destination) aid =
            some loc := by
          rw [lookupD_dictInsert_ne _ _ _ (fun h => hbest h.symm)]
          exact hact1
        rcases List.mem_cons.mp htr with rfl | htr
        · exact hact1
        · exact not_chosen_position_persists wh dyn delaysOn delays rest (idx + 1)
            _ pend1 aid loc hloc' hpf1 l' hrec
            (fun a ha => hnot a (List.mem_cons_of_mem _ ha)) tr htr

/-- C8: for every configuration (dynamic agents enabled or not), when the
loop records the assignment for a package, the chosen agent's tracked
position in the updated active map equals the package's destination; every
other agent's tracked position is unchanged from the selection map, and —
when no pending dynamic agent shares its id (the spec's id-uniqueness
invariant) — unchanged from the map before the step's dynamic admission as
well; the rest of the run continues from exactly that updated map (so each
later trip-distance computation reads the agent's origin from it); and
while the agent receives no further assignment (and, under the same
uniqueness invariant, no pending agent shares its id), every later
selection map still maps it to that destination. -/
theorem position_update_spec (wh : List Warehouse) (dyn delaysOn : Bool)
    (delays : ℕ → ℝ) (p : Package) (rest : List Package) (idx : ℕ)
    (active act1 : List (AgentId × Location))
    (pending pend1 : List (ℕ × Agent)) (w : Warehouse)
    (hap : (if dyn then addPendingAgents idx active pending
      else (active, pending)) = (act1, pend1))
    (hw : lookupWarehouse wh p.warehouse_id = some w) :
    ∃ best dmin, findBest act1 w.location p.destination = (best, dmin) ∧
      solveLoop wh dyn delaysOn delays (p :: rest) idx active pending =
        ⟨(solveLoop wh dyn delaysOn delays rest (idx + 1)
            (dictInsert act1 best p.destination) pend1).result.map
          (⟨best, p.id, p.warehouse_id, dmin,
            (if delaysOn then delays idx else 0), idx⟩ :: ·),
         (solveLoop wh dyn delaysOn delays rest (idx + 1)
            (dictInsert act1 best p.destination) pend1).pendingOut,
         act1 :: (solveLoop wh dyn delaysOn delays rest (idx + 1)
            (dictInsert act1 best p.destination) pend1).trace⟩ ∧
      lookupD (dictInsert act1 best p.destination) best = some p.destination ∧
      (∀ k, k ≠ best →
        lookupD (dictInsert act1 best p.destination) k = lookupD act1 k) ∧
      (∀ k, k ≠ best → (∀ q ∈ pending, some q.2.id ≠ k) →
        lookupD (dictInsert act1 best p.destination) k = lookupD active k) ∧
      ∀ l, (solveLoop wh dyn delaysOn delays rest (idx + 1)
          (dictInsert act1 best p.destination) pend1).result = .ok l →
        (∀ a ∈ l, a.agent_id ≠ best) →
        (∀ q ∈ pend1, some q.2.id ≠ best) →
        ∀ tr ∈ (solveLoop wh dyn delaysOn delays rest (idx + 1)
            (dictInsert act1 best p.destination) pend1).trace,
          lookupD tr best = some p.destination := by
  refine ⟨(findBest act1 w.location p.destination).1,
    (findBest act1 w.location p.destination).2, rfl, ?_, ?_, ?_, ?_, ?_⟩
  · exact solveLoop_cons_of_ok hap hw
  · exact lookupD_dictInsert_self _ _ _
  · intro k hk
    exact lookupD_dictInsert_ne _ _ _ hk
  · intro k hk hkfresh
    rw [lookupD_dictInsert_ne _ _ _ hk]
    cases hdyn : dyn with
    | false =>
      rw [hdyn] at hap
      simp only [Bool.false_eq_true, if_false] at hap
      injection hap with h1 _
      rw [← h1]
    | true =>
      rw [hdyn] at hap
      simp only [if_true] at hap
      have h1 : act1 = (addPendingAgents idx active pending).1 := by
        have := congrArg Prod.fst hap
        simpa using this.symm
      rw [h1, addPendingAgents_lookup_ne idx active pending hkfresh]
  · intro l hok hnot hpf1 tr htr
    exact not_chosen_position_persists wh dyn delaysOn delays rest (idx + 1) _
      pend1 _ p.destination (lookupD_dictInsert_self _ _ _) hpf1 l hok hnot
      tr htr

/-- Witness for C8 on a dynamic-agent run: agent `A1` at `(1,0)`, dynamic
agent `D1` admitted at index 0, package `P1` to the origin. -/
theorem position_update_spec_witness :
    ((if true then addPendingAgents 0 [(some "A1", (⟨1, 0⟩ : Location))]
        [((0 : ℕ), dynAgent)]
      else ([(some "A1", (⟨1, 0⟩ : Location))], [((0 : ℕ), dynAgent)])) =
      ([(some "A1", ⟨1, 0⟩), (some "D1", ⟨0, 0⟩)], []) ∧
      lookupWarehouse [wh1] pkg1.warehouse_id = some wh1) ∧
    (∃ best dmin, findBest [(some "A1", ⟨1, 0⟩), (some "D1", ⟨0, 0⟩)]
        wh1.location pkg1.destination = (best, dmin) ∧
      solveLoop [wh1] true false noDelays [pkg1] 0
          [(some "A1", ⟨1, 0⟩)] [((0 : ℕ), dynAgent)] =
        ⟨(solveLoop [wh1] true false noDelays [] (0 + 1)
            (dictInsert [(some "A1", ⟨1, 0⟩), (some "D1", ⟨0, 0⟩)] best
              pkg1.destination) []).result.map
          (⟨best, pkg1.id, pkg1.warehouse_id, dmin,
            (if false then noDelays 0 else 0), 0⟩ :: ·),
         (solveLoop [wh1] true false noDelays [] (0 + 1)
            (dictInsert [(some "A1", ⟨1, 0⟩), (some "D1", ⟨0, 0⟩)] best
              pkg1.destination) []).pendingOut,
         [(some "A1", (⟨1, 0⟩ : Location)), (some "D1", ⟨0, 0⟩)] ::
           (solveLoop [wh1] true false noDelays [] (0 + 1)
            (dictInsert [(some "A1", ⟨1, 0⟩), (some "D1", ⟨0, 0⟩)] best
              pkg1.destination) []).trace⟩ ∧
      lookupD (dictInsert [(some "A1", ⟨1, 0⟩), (some "D1", ⟨0, 0⟩)] best
        pkg1.destination) best = some pkg1.destination ∧
      (∀ k, k ≠ best →
        lookupD (dictInsert [(some "A1", ⟨1, 0⟩), (some "D1", ⟨0, 0⟩)] best
          pkg1.destination) k =
          lookupD [(some "A1", ⟨1, 0⟩), (some "D1", ⟨0, 0⟩)] k) ∧
      (∀ k, k ≠ best → (∀ q ∈ [((0 : ℕ), dynAgent)], some q.2.id ≠ k) →
        lookupD (dictInsert [(some "A1", ⟨1, 0⟩), (some "D1", ⟨0, 0⟩)] best
          pkg1.destination) k = lookupD [(some "A1", ⟨1, 0⟩)] k) ∧
      ∀ l, (solveLoop [wh1] true false noDelays [] (0 + 1)
          (dictInsert [(some "A1", ⟨1, 0⟩), (some "D1", ⟨0, 0⟩)] best
            pkg1.destination) []).result = .ok l →
        (∀ a ∈ l, a.agent_id ≠ best) →
        (∀ q ∈ ([] : List (ℕ × Agent)), some q.2.id ≠ best) →
        ∀ tr ∈ (solveLoop [wh1] true false noDelays [] (0 + 1)
            (dictInsert [(some "A1", ⟨1, 0⟩), (some "D1", ⟨0, 0⟩)] best
              pkg1.destination) []).trace,
          lookupD tr best = some pkg1.destination) := by
  have hap : (if true then addPendingAgents 0 [(some "A1", (⟨1, 0⟩ : Location))]
      [((0 : ℕ), dynAgent)]
      else ([(some "A1", (⟨1, 0⟩ : Location))], [((0 : ℕ), dynAgent)])) =
      ([(some "A1", ⟨1, 0⟩), (some "D1", ⟨0, 0⟩)], []) := rfl
  have hw : lookupWarehouse [wh1] pkg1.warehouse_id = some wh1 := rfl
  exact ⟨⟨hap, hw⟩, position_update_spec [wh1] true false noDelays pkg1 [] 0
    [(some "A1", ⟨1, 0⟩)] [(some "A1", ⟨1, 0⟩), (some "D1", ⟨0, 0⟩)]
    [((0 : ℕ), dynAgent)] [] wh1 hap hw⟩

/-! ## Claim C6 -/

/-- Every assignment in the loop's output has timestamp ≥ the start index. -/
theorem solveLoop_timestamps_ge (wh : List Warehouse) (dyn delaysOn : Bool)
    (delays : ℕ → ℝ) :
    ∀ (ps : List Package) (idx : ℕ) (active : List (AgentId × Location))
      (pending : List (ℕ × Agent)) (l : List Assignment),
      (solveLoop wh dyn delaysOn delays ps idx active pending).result = .ok l →
      ∀ a ∈ l, idx ≤ a.timestamp
  | [], _, _, _, l, hok => by
    simp only [solveLoop] at hok
    cases hok
    intro a ha
    simp at ha
  | p :: rest, idx, active, pending, l, hok => by
    obtain ⟨act1, pend1, hap⟩ :
        ∃ a b, (if dyn then addPendingAgents idx active pending
          else (active, pending)) = (a, b) :=
      ⟨_, _, rfl⟩
    cases hw : lookupWarehouse wh p.warehouse_id with
    | none =>
      rw [solveLoop_cons_of_err hap hw] at hok
      cases hok
    | some w =>
      rw [solveLoop_cons_of_ok hap hw] at hok
      cases hrec : (solveLoop wh dyn delaysOn delays rest (idx + 1)
          (dictInsert act1 (findBest act1 w.location p.destination).1
            p.destination) pend1).result with
      | error e => rw [hrec] at hok; cases hok
      | ok l' =>
        rw [hrec] at hok
        cases hok
        intro a ha
        rcases List.mem_cons.mp ha with rfl | ha
        · exact le_refl _
        · exact le_trans (Nat.le_succ idx)
            (solveLoop_timestamps_ge wh dyn delaysOn delays rest (idx + 1) _
              pend1 l' hrec a ha)

/-- Gating invariant: while an agent's id is not an active key and every
pending bearer of that id has threshold ≥ N, no assignment made at an index
below N can name that agent. -/
theorem solveLoop_fresh_not_assigned (wh : List Warehouse) (delaysOn : Bool)
    (delays : ℕ → ℝ) (N : ℕ) (A : Agent) :
    ∀ (ps : List Package) (idx : ℕ) (active : List (AgentId × Location))
      (pending : List (ℕ × Agent)),
      some A.id ∉ active.map Prod.fst →
      (∀ q ∈ pending, q.2.id = A.id → N ≤ q.1) →
      ∀ l, (solveLoop wh true delaysOn delays ps idx active pending).result = .ok l →
        ∀ a ∈ l, a.timestamp < N → a.agent_id ≠ some A.id
  | [], _, _, _, _, _, l, hok => by
    simp only [solveLoop] at hok
    cases hok
    intro a ha
    simp at ha
  | p :: rest, idx, active, pending, hA, hpend, l, hok => by
    obtain ⟨act1, pend1, hap⟩ :
        ∃ a b, (if true then addPendingAgents idx active pending
          else (active, pending)) = (a, b) :=
      ⟨_, _, rfl⟩
    have hact1 : act1 = (addPendingAgents idx active pending).1 := by
      have := congrArg Prod.fst hap
      simpa using this.symm
    have hpend1 : pend1 = (addPendingAgents idx active pending).2 := by
      have := congrArg Prod.snd hap
      simpa using this.symm
    by_cases hidx : idx < N
    · have hA1 : some A.id ∉ act1.map Prod.fst := by
        rw [hact1]
        intro hc
        rcases addPendingAgents_keys_cases hc with h | ⟨q, hq, hthr, hid⟩
        · exact hA h
        · have : q.2.id = A.id := by
            injection hid.symm
          exact absurd (le_trans (hpend q hq this) hthr) (Nat.not_le.mpr hidx)
      cases hw : lookupWarehouse wh p.warehouse_id with
      | none =>
        rw [solveLoop_cons_of_err hap hw] at hok
        cases hok
      | some w =>
        rw [solveLoop_cons_of_ok hap hw] at hok
        cases hrec : (solveLoop wh true delaysOn delays rest (idx + 1)
            (dictInsert act1 (findBest act1 w.location p.destination).1
              p.destination) pend1).result with
        | error e => rw [hrec] at hok; cases hok
        | ok l' =>
          rw [hrec] at hok
          cases hok
          have hbest : (findBest act1 w.location p.destination).1 ≠ some A.id := by
            rcases findBest_fst_mem_or_none act1 w.location p.destination with
              h | h
            · rw [h]; exact fun hc => Option.noConfusion hc
            · exact fun hc => hA1 (hc ▸ h)
          intro a ha hts
          rcases List.mem_cons.mp ha with rfl | ha
          · exact hbest
          · refine solveLoop_fresh_not_assigned wh delaysOn delays N A rest
              (idx + 1) _ pend1 ?_ ?_ l' hrec a ha hts
            · intro hc
              rcases keys_dictInsert_cases hc with h | h
              · exact hbest h.symm
              · exact hA1 h
            · intro q hq hid
              rw [hpend1] at hq
              exact hpend q (addPendingAgents_snd_sub active hq).1 hid
    · intro a ha hts
      have := solveLoop_timestamps_ge wh true delaysOn delays (p :: rest) idx
        active pending l hok a ha
      omega

/-- Admission invariant: an agent that is active, or pending with its
threshold `N`, is an active key at every processed step of index ≥ N. -/
theorem solveLoop_admitted_active (wh : List Warehouse) (delaysOn : Bool)
    (delays : ℕ → ℝ) (N : ℕ) (A : Agent) :
    ∀ (ps : List Package) (idx : ℕ) (active : List (AgentId × Location))
      (pending : List (ℕ × Agent)),
      (some A.id ∈ active.map Prod.fst ∨ (N, A) ∈ pending) →
      ∀ (k : ℕ) (tr : List (AgentId × Location)),
        (solveLoop wh true delaysOn delays ps idx active
          pending).trace.get? k = some tr →
        N ≤ idx + k →
        some A.id ∈ tr.map Prod.fst
  | [], _, _, _, _, k, tr, htr => by
    simp only [solveLoop] at htr
    simp at htr
  | p :: rest, idx, active, pending, hstate, k, tr, htr => by
    obtain ⟨act1, pend1, hap⟩ :
        ∃ a b, (if true then addPendingAgents idx active pending
          else (active, pending)) = (a, b) :=
      ⟨_, _, rfl⟩
    have hact1 : act1 = (addPendingAgents idx active pending).1 := by
      have := congrArg Prod.fst hap
      simpa using this.symm
    have hpend1 : pend1 = (addPendingAgents idx active pending).2 := by
      have := congrArg Prod.snd hap
      simpa using this.symm
    have hstate1 : some A.id ∈ act1.map Prod.fst ∨
        ((N, A) ∈ pend1 ∧ idx < N) := by
      rcases hstate with h | h
      · exact Or.inl (hact1 ▸ addPendingAgents_keys_sub idx active pending h)
      · by_cases hthr : N ≤ idx
        · exact Or.inl (hact1 ▸
            addPendingAgents_admitted_mem idx active pending h hthr)
        · exact Or.inr ⟨hpend1 ▸
            addPendingAgents_mem_snd h (Nat.lt_of_not_le hthr) active,
            Nat.lt_of_not_le hthr⟩
    intro hkN
    cases hw : lookupWarehouse wh p.warehouse_id with
    | none =>
      rw [solveLoop_cons_of_err hap hw] at htr
      match k, htr, hkN with
      | 0, htr, hkN =>
        cases htr
        rcases hstate1 with h | ⟨_, hlt⟩
        · exact h
        · omega
      | k + 1, htr, _ => simp at htr
    | some w =>
      rw [solveLoop_cons_of_ok hap hw] at htr
      match k, htr, hkN with
      | 0, htr, hkN =>
        cases htr
        rcases hstate1 with h | ⟨_, hlt⟩
        · exact h
        · omega
      | k + 1, htr, hkN =>
        have hstate2 : some A.id ∈ (dictInsert act1
            (findBest act1 w.location p.destination).1
            p.destination).map Prod.fst ∨ (N, A) ∈ pend1 := by
          rcases hstate1 with h | ⟨h, _⟩
          · exact Or.inl (dictInsert_keys_sub _ _ _ h)
          · exact Or.inr h
        exact solveLoop_admitted_active wh delaysOn delays N A rest (idx + 1)
          _ pend1 hstate2 k tr (by simpa using htr) (by omega)

/-- After a successful run that processed an index ≥ every threshold ≤ it,
the surviving pending entries all have thresholds beyond the run. -/
theorem solveLoop_pending_consumed (wh : List Warehouse) (delaysOn : Bool)
    (delays : ℕ → ℝ) :
    ∀ (ps : List Package) (idx : ℕ) (active : List (AgentId × Location))
      (pending : List (ℕ × Agent)) (l : List Assignment),
      (solveLoop wh true delaysOn delays ps idx active pending).result = .ok l →
      ps ≠ [] →
      ∀ q ∈ (solveLoop wh true delaysOn delays ps idx active
        pending).pendingOut, idx + ps.length ≤ q.1
  | [], _, _, _, _, _, hne => absurd rfl hne
  | p :: rest, idx, active, pending, l, hok, _ => by
    obtain ⟨act1, pend1, hap⟩ :
        ∃ a b, (if true then addPendingAgents idx active pending
          else (active, pending)) = (a, b) :=
      ⟨_, _, rfl⟩
    have hpend1 : pend1 = (addPendingAgents idx active pending).2 := by
      have := congrArg Prod.snd hap
      simpa using this.symm
    have hpend1bound : ∀ q ∈ pend1, idx < q.1 := by
      intro q hq
      rw [hpend1] at hq
      exact (addPendingAgents_snd_sub active hq).2
    cases hw : lookupWarehouse wh p.warehouse_id with
    | none =>
      rw [solveLoop_cons_of_err hap hw] at hok
      cases hok
    | some w =>
      rw [solveLoop_cons_of_ok hap hw] at hok ⊢
      cases hrec : (solveLoop wh true delaysOn delays rest (idx + 1)
          (dictInsert act1 (findBest act1 w.location p.destination).1
            p.destination) pend1).result with
      | error e => rw [hrec] at hok; cases hok
      | ok l' =>
        intro q hq
        cases rest with
        | nil =>
          have : q ∈ pend1 := by
            simpa [solveLoop] using hq
          have := hpend1bound q this
          simp only [List.length_cons, List.length_nil]
          omega
        | cons r rs =>
          have hrecq := solveLoop_pending_consumed wh delaysOn delays
            (r :: rs) (idx + 1) (dictInsert act1
              (findBest act1 w.location p.destination).1 p.destination)
            pend1 l' hrec (List.cons_ne_nil r rs) q (by simpa using hq)
          simp only [List.length_cons] at hrecq ⊢
          omega

/-- Admission preserves registration order: with fresh, pairwise-distinct
admitted ids, the post-admission active dict is the old one followed by the
admitted agents in pending (registration) order. -/
theorem addPendingAgents_order (idx : ℕ) (act : List (AgentId × Location))
    (pending : List (ℕ × Agent))
    (hfresh : ∀ q ∈ pending.filter (fun q => q.1 ≤ idx),
      some q.2.id ∉ act.map Prod.fst)
    (hnodup : ((pending.filter (fun q => q.1 ≤ idx)).map
      (fun q => q.2.id)).Nodup) :
    (addPendingAgents idx act pending).1 =
      act ++ (pending.filter (fun q => q.1 ≤ idx)).map
        (fun q => (some q.2.id, q.2.location)) := by
  show (pending.filter (fun q => q.1 ≤ idx)).foldl
      (fun act q => dictInsert act (some q.2.id) q.2.location) act = _
  generalize hgen : pending.filter (fun q => q.1 ≤ idx) = toAdd at hfresh hnodup ⊢
  clear hgen
  induction toAdd generalizing act with
  | nil => simp
  | cons q t ih =>
    have hq : some q.2.id ∉ act.map Prod.fst :=
      hfresh q (List.mem_cons_self q t)
    have hnodup' : (t.map (fun q => q.2.id)).Nodup := by
      rw [List.map_cons] at hnodup
      exact (List.nodup_cons.mp hnodup).2
    have hqnotin : q.2.id ∉ t.map (fun q => q.2.id) := by
      rw [List.map_cons] at hnodup
      exact (List.nodup_cons.mp hnodup).1
    have hfresh' : ∀ q' ∈ t, some q'.2.id ∉
        (act ++ [(some q.2.id, q.2.location)]).map Prod.fst := by
      intro q' hq' hc
      rw [List.map_append] at hc
      rcases List.mem_append.mp hc with h | h
      · exact hfresh q' (List.mem_cons_of_mem q hq') h
      · have hid : q'.2.id = q.2.id := by
          simp only [List.map_cons, List.map_nil, List.mem_singleton] at h
          exact Option.some.inj h
        exact hqnotin (hid ▸ List.mem_map_of_mem (fun q => q.2.id) hq')
    rw [List.foldl_cons, dictInsert_of_not_mem q.2.location hq,
      ih (act ++ [(some q.2.id, q.2.location)]) hfresh' hnodup',
      List.map_cons, List.append_assoc]
    rfl

/-- C6: with dynamic agents enabled, an agent registered with join
threshold N (id fresh among initial agents and unique among pending ones)
is never assigned any package of zero-based index < N; it is a key of the
active set (hence selectable) at every processed package of index ≥ N
(threshold 0 meaning active from the start); agents admitted at one index
enter the active dict in registration order; and once the run has
successfully processed package index N, the agent has left the pending
queue for good — it is admitted at most once. -/
theorem dynamic_agent_gating (S : Solver) (delays : ℕ → ℝ) (N : ℕ) (A : Agent)
    (hdyn : S.enable_dynamic_agents = true)
    (hmem : (N, A) ∈ S.pending_agents)
    (hfresh : A.id ∉ S.agents.map Agent.id)
    (hnodup : (S.pending_agents.map (fun q => q.2.id)).Nodup) :
    (∀ l, (S.solve delays).1 = .ok l →
      ∀ a ∈ l, a.timestamp < N → a.agent_id ≠ some A.id) ∧
    (∀ (k : ℕ) (tr : List (AgentId × Location)),
      (S.solveTrace delays).get? k = some tr → N ≤ k →
      some A.id ∈ tr.map Prod.fst) ∧
    (∀ (idx : ℕ) (act : List (AgentId × Location))
      (pending2 : List (ℕ × Agent)),
      (∀ q ∈ pending2.filter (fun q => q.1 ≤ idx),
        some q.2.id ∉ act.map Prod.fst) →
      ((pending2.filter (fun q => q.1 ≤ idx)).map (fun q => q.2.id)).Nodup →
      (addPendingAgents idx act pending2).1 =
        act ++ (pending2.filter (fun q => q.1 ≤ idx)).map
          (fun q => (some q.2.id, q.2.location))) ∧
    (∀ l, (S.solve delays).1 = .ok l → N < S.packages.length →
      (N, A) ∉ ((S.solve delays).2).pending_agents) := by
  have hAinit : some A.id ∉ (initialActive S.agents).map Prod.fst := by
    have hinitkeys : (initialActive S.agents).map Prod.fst =
        S.agents.map (fun a => some a.id) := by
      rw [initialActive, List.map_map]
      rfl
    rw [hinitkeys]
    intro hc
    rcases List.mem_map.mp hc with ⟨ag, hag, hid⟩
    exact hfresh (Option.some.inj hid ▸ List.mem_map_of_mem Agent.id hag)
  have hpendN : ∀ q ∈ S.pending_agents, q.2.id = A.id → N ≤ q.1 := by
    intro q hq hid
    have heq : q = (N, A) :=
      List.inj_on_of_nodup_map hnodup hq hmem hid
    rw [heq]
  refine ⟨?_, ?_, ?_, ?_⟩
  · intro l hok a ha hts
    have hok' : (solveLoop S.warehouses true S.enable_delays delays S.packages
        0 (initialActive S.agents) S.pending_agents).result = .ok l := by
      rw [← hdyn]; exact hok
    exact solveLoop_fresh_not_assigned S.warehouses S.enable_delays delays N A
      S.packages 0 (initialActive S.agents) S.pending_agents hAinit hpendN l
      hok' a ha hts
  · intro k tr htr hNk
    have htr' : (solveLoop S.warehouses true S.enable_delays delays S.packages
        0 (initialActive S.agents) S.pending_agents).trace.get? k =
        some tr := by
      rw [← hdyn]; exact htr
    exact solveLoop_admitted_active S.warehouses S.enable_delays delays N A
      S.packages 0 (initialActive S.agents) S.pending_agents (Or.inr hmem) k tr
      htr' (by omega)
  · intro idx act pending2 h1 h2
    exact addPendingAgents_order idx act pending2 h1 h2
  · intro l hok hNlen hc
    have hok' : (solveLoop S.warehouses true S.enable_delays delays S.packages
        0 (initialActive S.agents) S.pending_agents).result = .ok l := by
      rw [← hdyn]; exact hok
    have hc' : (N, A) ∈ (solveLoop S.warehouses true S.enable_delays delays
        S.packages 0 (initialActive S.agents)
        S.pending_agents).pendingOut := by
      rw [← hdyn]; exact hc
    have hbound := solveLoop_pending_consumed S.warehouses S.enable_delays
      delays S.packages 0 (initialActive S.agents) S.pending_agents l hok'
      (by intro h; rw [h] at hNlen; simp at hNlen) (N, A) hc'
    have hNA : ((N, A) : ℕ × Agent).1 = N := rfl
    rw [hNA] at hbound
    omega

/-- Witness for C6 on `Sdyn` with threshold 0 and dynamic agent `D1`. -/
theorem dynamic_agent_gating_witness :
    (Sdyn.enable_dynamic_agents = true ∧
      ((0 : ℕ), dynAgent) ∈ Sdyn.pending_agents ∧
      dynAgent.id ∉ Sdyn.agents.map Agent.id ∧
      (Sdyn.pending_agents.map (fun q => q.2.id)).Nodup) ∧
    ((∀ l, (Sdyn.solve noDelays).1 = .ok l →
      ∀ a ∈ l, a.timestamp < 0 → a.agent_id ≠ some dynAgent.id) ∧
    (∀ (k : ℕ) (tr : List (AgentId × Location)),
      (Sdyn.solveTrace noDelays).get? k = some tr → 0 ≤ k →
      some dynAgent.id ∈ tr.map Prod.fst) ∧
    (∀ (idx : ℕ) (act : List (AgentId × Location))
      (pending2 : List (ℕ × Agent)),
      (∀ q ∈ pending2.filter (fun q => q.1 ≤ idx),
        some q.2.id ∉ act.map Prod.fst) →
      ((pending2.filter (fun q => q.1 ≤ idx)).map (fun q => q.2.id)).Nodup →
      (addPendingAgents idx act pending2).1 =
        act ++ (pending2.filter (fun q => q.1 ≤ idx)).map
          (fun q => (some q.2.id, q.2.location))) ∧
    (∀ l, (Sdyn.solve noDelays).1 = .ok l → 0 < Sdyn.packages.length →
      ((0 : ℕ), dynAgent) ∉ ((Sdyn.solve noDelays).2).pending_agents)) := by
  have h1 : Sdyn.enable_dynamic_agents = true := rfl
  have h2 : ((0 : ℕ), dynAgent) ∈ Sdyn.pending_agents := by
    simp [Sdyn]
  have h3 : dynAgent.id ∉ Sdyn.agents.map Agent.id := by
    simp [Sdyn, agA, dynAgent]
  have h4 : (Sdyn.pending_agents.map (fun q => q.2.id)).Nodup := by
    simp [Sdyn]
  exact ⟨⟨h1, h2, h3, h4⟩,
    dynamic_agent_gating Sdyn noDelays 0 dynAgent h1 h2 h3 h4⟩

end
